import Mathlib

/-!
# Verification of the generate → validate → execute → revise control loop

Shallow embedding of the core of the `agentic_paper` repository:
the Static Validator (`validation/validator.py`), the Answer Extraction
(`execution/answer_parser.py`), the Attempt Controller loop
(`agent.py`, `solve_question_with_agent`), the Sandboxed Executor
(`execution/runner.py`, `run_generated_code`), and the fail-open JSON
helper of the semantic critic (`validation/spec_critic.py`).

Python strings are modelled as Lean `String` / `List Char` (ASCII model of
`\w` and `\s` character classes, which covers every string the repository
manipulates).  Python dicts are modelled as insertion-ordered association
lists.  External collaborators (the LLM calls, the subprocess commands, the
file system) are modelled as oracle parameters, so every in-repo function is
a computable Lean definition.
-/

/-! ## Character classes and basic string utilities -/

/-- ASCII model of the regex word class `\w` = `[A-Za-z0-9_]`
(Lean's `Char.isAlpha` / `Char.isDigit` are exactly the ASCII classes). -/
def isWordChar (c : Char) : Bool :=
  c.isAlpha || c.isDigit || c = '_'

/-- ASCII model of the regex space class `\s` = `[ \t\n\r\f\v]`
(also the characters Python's `str.strip` / `str.lstrip` remove). -/
def isPySpace (c : Char) : Bool :=
  c = ' ' || c = '\t' || c = '\n' || c = '\x0d' || c = '\x0c' || c = '\x0b'

/-- Consume the literal `lit` at the head of `l`, returning the rest
(`None` when `lit` is not a prefix of `l`). -/
def dropLit (lit : List Char) (l : List Char) : Option (List Char) :=
  if lit.isPrefixOf l then some (l.drop lit.length) else none

/-- `listContains hay needle`: Python's `needle in hay` substring test. -/
def listContains (needle : List Char) : List Char → Bool
  | [] => needle.isEmpty
  | c :: rest => needle.isPrefixOf (c :: rest) || listContains needle rest

/-- Python `needle in hay` on strings. -/
def strContains (hay needle : String) : Bool :=
  listContains needle.data hay.data

/-- `re.search` driver for patterns with no left context: try the pattern `p`
at every suffix of the subject (including the empty suffix). -/
def scanAny (p : List Char → Bool) : List Char → Bool
  | [] => p []
  | c :: rest => p (c :: rest) || scanAny p rest

/-- `re.search` driver for patterns that need the previous character
(for `\b` word boundaries): `prev` is the character just before the
current suffix, `none` at the start of the subject. -/
def scanPat (p : Option Char → List Char → Bool) : Option Char → List Char → Bool
  | prev, [] => p prev []
  | prev, c :: rest => p prev (c :: rest) || scanPat p (some c) rest

/-- Word-ness of an optional character (`none` = subject edge = not a word
character), used for `\b`. -/
def optWord : Option Char → Bool
  | some c => isWordChar c
  | none => false

/-- The regex word boundary `\b` between adjacent characters `a` and `b`:
exactly one side is a word character. -/
def boundaryB (a b : Option Char) : Bool :=
  optWord a != optWord b

/-- Existential semantics of `\s*` followed by the continuation `k`:
true iff some (possibly empty) run of leading whitespace can be skipped so
that `k` accepts the remainder.  (For `re.search` truth-value questions this
is exactly backtracking-regex behaviour.) -/
def skipSpacesThen (k : List Char → Bool) : List Char → Bool
  | [] => k []
  | c :: rest => k (c :: rest) || (isPySpace c && skipSpacesThen k rest)

/-! ## Static Validator — `validation/validator.py` -/

/-- Tail of the forbidden-module pattern after `\s+` has consumed at least one
space: the module literal `mod` followed by `\b`.  `lastSp` is the last
whitespace character consumed (the character preceding `mod`'s position),
needed to evaluate `\b` when `mod` is empty. -/
def modTailMatch (mod : List Char) (lastSp : Char) (l : List Char) : Bool :=
  match dropLit mod l with
  | some rest => boundaryB (some (mod.getLastD lastSp)) rest.head?
  | none => false

/-- `\s+` (at least one space already consumed, `lastSp`) then `mod \b`:
either the tail matches here, or consume one more space. -/
def spacesRest (mod : List Char) (lastSp : Char) : List Char → Bool
  | [] => modTailMatch mod lastSp []
  | c :: rest => modTailMatch mod lastSp (c :: rest) || (isPySpace c && spacesRest mod c rest)

/-- `\s+` then `mod \b`. -/
def spacesThenTail (mod : List Char) : List Char → Bool
  | [] => false
  | c :: rest => isPySpace c && spacesRest mod c rest

/-- The pattern `\b kw \s+ mod \b` anchored at the current position
(with `prev` the character before it).  `kw` is `import` or `from`, both of
which start with a word character, so the leading `\b` is evaluated against
the keyword's first character. -/
def modPatAt (kw mod : List Char) (prev : Option Char) (l : List Char) : Bool :=
  match dropLit kw l with
  | some rest => boundaryB prev kw.head? && spacesThenTail mod rest
  | none => false

/-- `re.search(rf"\b{kw}\s+{re.escape(mod)}\b", code)` as a Bool
(`re.escape` makes `mod` a literal). -/
def searchModPat (kw mod code : String) : Bool :=
  scanPat (modPatAt kw.data mod.data) none code.data

/-- The forbidden-module test of `validate_code` for one module name:
`re.search(rf"\bimport\s+{mod}\b", code) or re.search(rf"\bfrom\s+{mod}\b", code)`. -/
def forbiddenModuleHit (mod code : String) : Bool :=
  searchModPat "import" mod code || searchModPat "from" mod code

/-- Issue text for a forbidden module (validator.py line 24). -/
def pyModMsg (mod : String) : String :=
  "Use of forbidden module \x27" ++ mod ++ "\x27 is not allowed."

/-- Issue text for a forbidden call (validator.py line 29). -/
def pyCallMsg (call : String) : String :=
  "Use of forbidden call \x27" ++ call ++ "\x27 is not allowed."

/-- Issue text for markdown fences (validator.py lines 33-35). -/
def pyFenceMsg : String :=
  "Response contains markdown code fences (\x60\x60\x60); respond with plain Python code only."

/-- Issue text for the missing answer marker (validator.py lines 41-43). -/
def pyMarkerMsg : String :=
  "Code must print the final answer with a line like: print(\x27Answer:\x27, value)"

/-- The marker pattern `print\s*\(\s*['\"]Answer:\s*` anchored at the current
position (the trailing `\s*` always matches and is dropped; `found`-only use). -/
def markerPatAt (l : List Char) : Bool :=
  match dropLit "print".data l with
  | some r1 =>
      skipSpacesThen (fun r2 =>
        match r2 with
        | c :: r3 =>
            c = '(' &&
              skipSpacesThen (fun r4 =>
                match r4 with
                | q :: r5 => (q = '\x27' || q = '\x22') && "Answer:".data.isPrefixOf r5
                | [] => false) r3
        | [] => false) r1
  | none => false

/-- `re.search(r"print\s*\(\s*['\"]Answer:\s*", code)` as a Bool. -/
def hasAnswerMarker (code : String) : Bool :=
  scanAny markerPatAt code.data

/-- The rule configuration slice of `AgentConfig` that `validate_code` reads
(config.py: `forbidden_modules`, `forbidden_calls`, `require_answer_print`). -/
structure RuleConfig where
  forbidden_modules : List String
  forbidden_calls : List String
  require_answer_print : Bool
  deriving DecidableEq, Repr

/-- Module-check issues segment of `validate_code` (lines 20-24), in the
order of `config.forbidden_modules`. -/
def moduleIssues (cfg : RuleConfig) (code : String) : List String :=
  cfg.forbidden_modules.filterMap fun mod =>
    if forbiddenModuleHit mod code then some (pyModMsg mod) else none

/-- Call-check issues segment of `validate_code` (lines 27-29):
literal substring test, in the order of `config.forbidden_calls`. -/
def callIssues (cfg : RuleConfig) (code : String) : List String :=
  cfg.forbidden_calls.filterMap fun call =>
    if strContains code call then some (pyCallMsg call) else none

/-- Markdown-fence issue segment of `validate_code` (lines 32-35). -/
def fenceIssues (code : String) : List String :=
  if strContains code "\x60\x60\x60" then [pyFenceMsg] else []

/-- Answer-marker issue segment of `validate_code` (lines 37-43).
`require_answer_print = none` models the Python `None` default, in which case
the config flag decides. -/
def markerIssues (cfg : RuleConfig) (code : String) (require_answer_print : Option Bool) :
    List String :=
  let need := require_answer_print.getD cfg.require_answer_print
  if need && !hasAnswerMarker code then [pyMarkerMsg] else []

/-- `validate_code(code, config, require_answer_print)` from
`validation/validator.py`: returns `(is_valid, issues)` with
`is_valid = (len(issues) == 0)`. -/
def validate_code (code : String) (cfg : RuleConfig) (require_answer_print : Option Bool) :
    Bool × List String :=
  let issues :=
    moduleIssues cfg code ++ callIssues cfg code ++ fenceIssues code ++
      markerIssues cfg code require_answer_print
  (issues.isEmpty, issues)

/-! ## Answer Extraction — `execution/answer_parser.py` -/

/-- Python `str.strip()` (both ends, whitespace). -/
def pyStrip (s : String) : String :=
  ⟨((s.data.dropWhile isPySpace).reverse.dropWhile isPySpace).reverse⟩

/-- Character-level worker for Python `str.splitlines()` handling the three
line terminators `\r\n`, `\r`, `\n` (the exotic Unicode terminators do not
occur in this repository's data). -/
def splitLinesGo (cur : List Char) : List Char → List (List Char)
  | [] => if cur.isEmpty then [] else [cur.reverse]
  | '\x0d' :: '\n' :: rest => cur.reverse :: splitLinesGo [] rest
  | '\n' :: rest => cur.reverse :: splitLinesGo [] rest
  | '\x0d' :: rest => cur.reverse :: splitLinesGo [] rest
  | c :: rest => splitLinesGo (c :: cur) rest

/-- Python `stdout.splitlines()`: no trailing empty line for a terminated
final line, and `"".splitlines() == []`. -/
def pySplitlines (s : String) : List String :=
  match s.data with
  | [] => []
  | l => (splitLinesGo [] l).map fun cs => ⟨cs⟩

/-- Greedy (maximal-munch) match of the numeric-token regex
`[+-]?\d+(?:\.\d+)?(?:[eE][+-]?\d+)?` at the head of `l`, returning the
matched token and the rest.  For this pattern greedy matching never needs
backtracking: the fractional part requires a digit after `.`, and the
exponent starts with a non-digit, so maximal runs are exact. -/
def numTokenAt (l : List Char) : Option (List Char × List Char) :=
  let (sign, l1) :=
    match l with
    | '+' :: r => (['+'], r)
    | '-' :: r => (['-'], r)
    | _ => (([] : List Char), l)
  let intPart := l1.takeWhile Char.isDigit
  if intPart.isEmpty then none
  else
    let l2 := l1.drop intPart.length
    let (frac, l3) :=
      match l2 with
      | '.' :: r =>
          let ds := r.takeWhile Char.isDigit
          if ds.isEmpty then (([] : List Char), l2)
          else ('.' :: ds, r.drop ds.length)
      | _ => (([] : List Char), l2)
    let (expo, l4) :=
      match l3 with
      | e :: r =>
          if e = 'e' || e = 'E' then
            let (es, r1) :=
              match r with
              | '+' :: r2 => (['+'], r2)
              | '-' :: r2 => (['-'], r2)
              | _ => (([] : List Char), r)
            let ds := r1.takeWhile Char.isDigit
            if ds.isEmpty then (([] : List Char), l3)
            else (e :: (es ++ ds), r1.drop ds.length)
          else (([] : List Char), l3)
      | [] => (([] : List Char), l3)
    some (sign ++ intPart ++ frac ++ expo, l4)

/-- The pattern `Answer:\s*( numeric-token )` anchored at the head of `l`
(the `\s*` is greedy; the token starts with `+`, `-` or a digit, never a
space, so the maximal whitespace run is exact). -/
def answerNumAt (l : List Char) : Option (List Char) :=
  match dropLit "Answer:".data l with
  | some r =>
      match numTokenAt (r.dropWhile isPySpace) with
      | some (tok, _) => some tok
      | none => none
  | none => none

/-- `re.search` of `Answer:\s*(num)` over a line: leftmost position at which
the whole pattern matches, returning group 1. -/
def findAnswerNum : List Char → Option (List Char)
  | [] => none
  | c :: rest =>
      match answerNumAt (c :: rest) with
      | some tok => some tok
      | none => findAnswerNum rest

/-- Digits to a natural number (the token grammar guarantees only
`Char.isDigit` characters are passed). -/
def digitsToNat (ds : List Char) : Nat :=
  ds.foldl (fun acc c => acc * 10 + (c.toNat - '0'.toNat)) 0

/-- Value denoted by a numeric token of the grammar above, as an exact
rational.  Python's `float()` accepts every token of this grammar without
raising (the `try/except` around `float(num_str)` in the source can
therefore never take its `except` branch); we model the denoted value
exactly rather than IEEE-rounded: `sign * (intpart.fracpart) * 10^exponent`
via an integer mantissa over a power-of-ten denominator. -/
def ratOfToken (tok : List Char) : ℚ :=
  let sgnRest : Int × List Char :=
    match tok with
    | '+' :: r => (1, r)
    | '-' :: r => (-1, r)
    | _ => (1, tok)
  let t1 := sgnRest.2
  let intPart := t1.takeWhile Char.isDigit
  let t2 := t1.drop intPart.length
  let fracRest : List Char × List Char :=
    match t2 with
    | '.' :: r => (r.takeWhile Char.isDigit, r.dropWhile Char.isDigit)
    | _ => ([], t2)
  let fracDigits := fracRest.1
  let expVal : Int :=
    match fracRest.2 with
    | _ :: r =>
        (match r with
         | '+' :: r2 => (digitsToNat (r2.takeWhile Char.isDigit) : Int)
         | '-' :: r2 => -(digitsToNat (r2.takeWhile Char.isDigit) : Int)
         | _ => (digitsToNat (r.takeWhile Char.isDigit) : Int))
    | [] => 0
  let mantissa : Int :=
    sgnRest.1 * ((digitsToNat intPart : Int) * 10 ^ fracDigits.length + (digitsToNat fracDigits : Int))
  if 0 ≤ expVal then
    mkRat (mantissa * 10 ^ expVal.toNat) (10 ^ fracDigits.length)
  else
    mkRat mantissa (10 ^ fracDigits.length * 10 ^ (-expVal).toNat)

/-- `ParsedAnswer` (spec §3): the dict returned by
`parse_answer_from_stdout`.  `value` is the exact rational denoted by the
matched token. -/
structure ParsedAnswer where
  raw_line : Option String
  value : Option ℚ
  parse_success : Bool
  error : Option String
  deriving DecidableEq, Repr

/-- Error text when no marker line exists (answer_parser.py line 33). -/
def pyNoMarkerMsg : String :=
  "No line containing \x27Answer:\x27 found in stdout."

/-- Error text when the marker line has no numeric token
(answer_parser.py line 47). -/
def pyNumParseMsg : String :=
  "Could not parse a numeric value after \x27Answer:\x27."

/-- `parse_answer_from_stdout(stdout)` from `execution/answer_parser.py`:
scan the lines from the end for the last one containing `Answer:`, strip it,
then search it for `Answer:\s*(number)`.  Pure and total: every failure mode
is a returned value. -/
def parse_answer_from_stdout (stdout : String) : ParsedAnswer :=
  let lines := pySplitlines stdout
  match lines.reverse.find? (fun line => strContains line "Answer:") with
  | none =>
      { raw_line := none, value := none, parse_success := false,
        error := some pyNoMarkerMsg }
  | some line =>
      let answerLine := pyStrip line
      match findAnswerNum answerLine.data with
      | none =>
          { raw_line := some answerLine, value := none, parse_success := false,
            error := some pyNumParseMsg }
      | some tok =>
          { raw_line := some answerLine, value := some (ratOfToken tok),
            parse_success := true, error := none }

/-! ## Attempt Controller data model and helpers — `agent.py` -/

/-- `FileSpec` of the spec's `ProjectPlan` (§3): a plan file entry.
`agent.py` reads `f["name"]` (always present) and `f.get("role")`. -/
structure FileSpec where
  name : String
  role : Option String
  deriving DecidableEq, Repr

/-- One plot declaration under an experiment's `outputs.plots`
(`p.get("filename")`). -/
structure PlotSpec where
  filename : Option String
  deriving DecidableEq, Repr

/-- `outputs` of an experiment (`exp.get("outputs") or {}` yields the plots
list; a missing/empty outputs dict is the empty plots list). -/
structure ExperimentOutputs where
  plots : List PlotSpec
  deriving DecidableEq, Repr

/-- An experiment of the plan (only the part `agent.py` reads). -/
structure Experiment where
  outputs : ExperimentOutputs
  deriving DecidableEq, Repr

/-- `ProjectPlan` (§3): the part of the plan dict the controller reads. -/
structure ProjectPlan where
  files : List FileSpec
  experiments : List Experiment
  deriving DecidableEq, Repr

/-- `CodeByFile`: an insertion-ordered Python dict `filename -> source`. -/
abbrev CodeByFile := List (String × String)

/-- Python `d.get(k, default)` on an insertion-ordered dict. -/
def dictGetD (d : List (String × String)) (k : String) (dflt : String) : String :=
  match d.find? (fun kv => kv.1 = k) with
  | some kv => kv.2
  | none => dflt

/-- Python `k in d` on an insertion-ordered dict. -/
def dictHasKey (d : List (String × String)) (k : String) : Bool :=
  (d.find? (fun kv => kv.1 = k)).isSome

/-- Python `d[k] = v`: replace the value at `k` in place if the key exists,
otherwise append the new key at the end (dict insertion order). -/
def dictSet (d : List (String × String)) (k v : String) : List (String × String) :=
  if dictHasKey d k then
    d.map (fun kv => if kv.1 = k then (kv.1, v) else kv)
  else
    d ++ [(k, v)]

/-- `_combine_project_code(project_plan, code_by_file)` (agent.py lines
46-61): non-env files in plan order, each as a `# ==== name ====` header,
the file's code (`""` when absent), and a blank line, joined with `"\n"`. -/
def combineProjectCode (plan : ProjectPlan) (code_by_file : CodeByFile) : String :=
  let parts := plan.files.flatMap fun f =>
    if f.role = some "env" then []
    else ["# ==== " ++ f.name ++ " ====", dictGetD code_by_file f.name "", ""]
  String.intercalate "\n" parts

/-- One attempted match of `^\s*def\s+([A-Za-z_][A-Za-z0-9_]*)\s*\(` at the
current position (which the caller guarantees is a `re.MULTILINE` `^`
anchor).  Greedy maximal-munch is exact for this pattern: each quantified
class is disjoint from what follows it.  Returns the captured name and the
rest of the subject after the consumed `(`. -/
def defPatAt (l : List Char) : Option (String × List Char) :=
  let l1 := l.dropWhile isPySpace
  match dropLit "def".data l1 with
  | none => none
  | some l2 =>
      match l2 with
      | c :: _ =>
          if isPySpace c then
            let l3 := l2.dropWhile isPySpace
            match l3 with
            | i :: irest =>
                if i.isAlpha || i = '_' then
                  let tail := irest.takeWhile isWordChar
                  let l4 := (irest.drop tail.length).dropWhile isPySpace
                  match l4 with
                  | '(' :: l5 => some (⟨i :: tail⟩, l5)
                  | _ => none
                else none
            | [] => none
          else none
      | [] => none

/-- `re.findall` scan for `_FUNC_PATTERN` (agent.py lines 40-43):
left-to-right, non-overlapping, anchored at `^` positions (subject start or
just after a `\n`).  `fuel` only bounds the recursion; each step consumes at
least one character, so `l.length + 1` is always enough. -/
def extractGo (fuel : Nat) (prev : Option Char) (l : List Char) : List String :=
  match fuel with
  | 0 => []
  | fuel + 1 =>
      let anchored := prev = none || prev = some '\n'
      match (if anchored then defPatAt l else none) with
      | some (name, rest) => name :: extractGo fuel (some '(') rest
      | none =>
          match l with
          | [] => []
          | c :: rest => extractGo fuel (some c) rest

/-- `_extract_function_names_from_code(code)` (agent.py lines 64-66). -/
def extractFunctionNames (code : String) : List String :=
  extractGo (code.data.length + 1) none code.data

/-- Order-preserving deduplication (the `seen`-set loops in agent.py). -/
def dedupPreserve (l : List String) : List String :=
  (l.foldl (fun acc n => if acc.contains n then acc else acc ++ [n]) [])

/-- `_get_helper_function_names(project_plan, code_by_file, entrypoint_name)`
(agent.py lines 69-90): function names defined in non-entrypoint files,
deduplicated preserving order. -/
def getHelperFunctionNames (plan : ProjectPlan) (code_by_file : CodeByFile)
    (entrypoint_name : Option String) : List String :=
  let names := plan.files.flatMap fun f =>
    if entrypoint_name ≠ none ∧ some f.name = entrypoint_name then []
    else extractFunctionNames (dictGetD code_by_file f.name "")
  dedupPreserve names

/-- The call-site pattern `rf"\b{fn}\s*\("` anchored at the current position
(`fn` is an identifier from `_FUNC_PATTERN`, so it starts with a word
character and the leading `\b` is evaluated against it). -/
def callPatAt (fn : List Char) (prev : Option Char) (l : List Char) : Bool :=
  match dropLit fn l with
  | some rest =>
      boundaryB prev fn.head? &&
        skipSpacesThen (fun r => match r with | '(' :: _ => true | _ => false) rest
  | none => false

/-- `re.search(rf"\b{re.escape(fn)}\s*\(", line)` as a Bool. -/
def searchCallPat (fn line : String) : Bool :=
  scanPat (callPatAt fn.data) none line.data

/-- Python `str.lstrip()`. -/
def pyLstrip (s : String) : String :=
  ⟨s.data.dropWhile isPySpace⟩

/-- `_entrypoint_uses_helpers(code, helper_function_names)` (agent.py lines
93-110): skip lines starting (after lstrip) with `def ` or `class `; on the
remaining lines, search for any helper's call-site pattern.  The source
splits with `str.splitlines()`. -/
def entrypointUsesHelpers (code : String) (helper_function_names : List String) : Bool :=
  if helper_function_names.isEmpty then false
  else
    (pySplitlines code).any fun line =>
      let stripped := pyLstrip line
      if "def ".data.isPrefixOf stripped.data || "class ".data.isPrefixOf stripped.data then
        false
      else helper_function_names.any fun fn => searchCallPat fn line

/-- `_expected_plot_filenames(project_plan)` (agent.py lines 113-129):
every truthy plot filename (Python `if fn:` drops both `None` and `""`),
deduplicated preserving order. -/
def expectedPlotFilenames (plan : ProjectPlan) : List String :=
  let filenames := plan.experiments.flatMap fun exp =>
    exp.outputs.plots.filterMap fun p =>
      match p.filename with
      | some fn => if fn = "" then none else some fn
      | none => none
  dedupPreserve filenames

/-- `_entrypoint_generates_required_plots(combined_code, project_plan)`
(agent.py lines 132-149): expected filenames not occurring as literal
substrings of the combined code. -/
def missingPlotFilenames (combined_code : String) (plan : ProjectPlan) : List String :=
  (expectedPlotFilenames plan).filter fun fn => !strContains combined_code fn

/-! ## Python `str()` of the issues dict (for the ValidationError string) -/

/-- Python `repr` of a string: single quotes unless the string contains a
single quote and no double quote; escape the backslash, the chosen quote,
and the common control characters (sufficient for the repository's issue
texts, which contain no other non-printables). -/
def pyStrRepr (s : String) : String :=
  let hasSingle := s.data.contains '\x27'
  let hasDouble := s.data.contains '\x22'
  let q : Char := if hasSingle && !hasDouble then '\x22' else '\x27'
  let esc := s.data.flatMap fun c =>
    if c = '\\' then ['\\', '\\']
    else if c = q then ['\\', q]
    else if c = '\n' then ['\\', 'n']
    else if c = '\x0d' then ['\\', 'r']
    else if c = '\t' then ['\\', 't']
    else [c]
  ⟨q :: (esc ++ [q])⟩

/-- Python `str` of a list of strings. -/
def pyListRepr (l : List String) : String :=
  "[" ++ String.intercalate ", " (l.map pyStrRepr) ++ "]"

/-- Python `str` of the `Dict[str, List[str]]` of validation issues, as
interpolated by `f"ValidationError: {validation_issues_by_file}"`. -/
def pyIssuesRepr (d : List (String × List String)) : String :=
  "\x7b" ++
    String.intercalate ", " (d.map fun kv => pyStrRepr kv.1 ++ ": " ++ pyListRepr kv.2) ++
    "\x7d"

/-! ## Attempt Controller — `agent.py`, `solve_question_with_agent` -/

/-- Stable insertion into a sorted list (kernel-reducible). -/
def insertSorted (x : String) : List String → List String
  | [] => [x]
  | y :: t => if x ≤ y then x :: y :: t else y :: insertSorted x t

/-- Python `sorted` on strings (lexicographic by code point; insertion sort,
which agrees with Python's stable sort — the lists sorted here are
duplicate-free). -/
def pySorted (l : List String) : List String :=
  l.foldr insertSorted []

/-- The helper-usage issue message (agent.py lines 257-261). -/
def helperUsageMsg (helper_function_names : List String) : String :=
  "Entrypoint file should call at least one helper function; expected to use one of: " ++
    String.intercalate ", " (pySorted helper_function_names)

/-- The missing-plots issue message (agent.py lines 273-278). -/
def missingPlotsMsg (missing : List String) : String :=
  "The project plan defines experiments with plots, but the code does not reference all expected PNG filenames. Ensure each of these appears in a plt.savefig(...) call: " ++
    String.intercalate ", " missing

/-- `validation_issues_by_file.setdefault(name, []).extend(issues)` /
`.append(msg)` on the insertion-ordered issues dict: extend in place when
the key exists, else insert the key at the end. -/
def issuesExtendAt (d : List (String × List String)) (k : String) (vs : List String) :
    List (String × List String) :=
  if (d.find? (fun kv => kv.1 = k)).isSome then
    d.map (fun kv => if kv.1 = k then (kv.1, kv.2 ++ vs) else kv)
  else
    d ++ [(k, vs)]

/-- The result dict of `spec_critic` as consumed by the controller. -/
structure SpecCriticResult where
  ok : Bool
  issues_by_file : List (String × List String)
  deriving DecidableEq, Repr

/-- Observable behaviour of one `spec_critic(...)` call at the controller's
`try` boundary (agent.py lines 215-224): it either returns a result dict or
raises. -/
inductive CriticBehavior where
  | result (r : SpecCriticResult)
  | exn
  deriving DecidableEq, Repr

/-- The slice of the per-attempt run-result dict that the control loop reads
(`final_run_result.get("success", False)`, `.get("stdout", "")`,
`.get("error")`); all run-result dicts in `agent.py`/`runner.py` carry these
keys.  Field presence on each producer path is modelled separately for the
executor (see `runGeneratedCode` below). -/
structure RunResultS where
  success : Bool
  stdout : String
  error : Option String
  deriving DecidableEq, Repr

/-- `AttemptRecord` (spec §3): the dict appended to `attempts_meta`
(agent.py lines 307-314). -/
structure AttemptRecord where
  attempt_index : Nat
  success : Bool
  error : Option String
  validation_issues : List (String × List String)
  deriving DecidableEq, Repr

/-- The fields of `AgentConfig` the control loop and validator read. -/
structure AgentConfigM where
  max_retries : Int
  forbidden_modules : List String
  forbidden_calls : List String
  require_answer_print : Bool
  deriving DecidableEq, Repr

/-- The validator's view of the config. -/
def AgentConfigM.rules (cfg : AgentConfigM) : RuleConfig :=
  ⟨cfg.forbidden_modules, cfg.forbidden_calls, cfg.require_answer_print⟩

/-- Oracles for the three fallible external collaborators of one run
(spec §6), indexed by the attempt number so behaviour may vary per attempt:
the semantic critic (`spec_critic`), the Sandboxed Executor's observable
outcome (`run_generated_code` performs I/O, so the loop model consumes its
result abstractly), and the revision collaborator (`revise_code`). -/
structure LoopOracles where
  critic : Nat → CodeByFile → CriticBehavior
  runner : Nat → String → RunResultS
  reviser : Nat → String → RunResultS → List String → String

/-- Everything one loop iteration (attempt) of `solve_question_with_agent`
produces (agent.py lines 209-314). -/
structure StepOut where
  all_valid : Bool
  issues : List (String × List String)
  invoked_executor : Bool
  run_result : RunResultS
  record : AttemptRecord
  deriving Repr

/-- The validation phase of one attempt (agent.py lines 210-279, spec §4.5
steps 1-5): combine the project code, run the semantic critic fail-open
(`try/except` around `spec_critic`), run the Static Validator per plan file
(answer marker required exactly for the entrypoint role), then the
helper-usage and missing-plots checks; returns `(all_valid,
validation_issues_by_file)`.  The `environment.yaml` write (lines 282-286)
is a file-system effect with no bearing on the loop state and is not
modelled. -/
def validationPhase (cfg : AgentConfigM) (plan : ProjectPlan) (entry : Option String)
    (orc : LoopOracles) (attempt_idx : Nat) (code_by_file : CodeByFile) :
    Bool × List (String × List String) :=
  let combined := combineProjectCode plan code_by_file
  let specOut :=
    match orc.critic attempt_idx code_by_file with
    | .exn => (true, ([] : List (String × List String)))
    | .result r => (r.ok, r.issues_by_file)
  let spec_ok := specOut.1
  let issues0 := specOut.2.map fun kv => (kv.1, kv.2)
  let perFile := plan.files.foldl
    (fun (st : Bool × List (String × List String)) f =>
      let code := dictGetD code_by_file f.name ""
      let requireAnswer := f.role = some "entrypoint"
      let v := validate_code code cfg.rules (some requireAnswer)
      if !v.1 then
        (false, if !v.2.isEmpty then issuesExtendAt st.2 f.name v.2 else st.2)
      else st)
    (spec_ok, issues0)
  let helperNames := getHelperFunctionNames plan code_by_file entry
  let afterHelper :=
    match entry with
    | some e =>
        if !helperNames.isEmpty then
          if !entrypointUsesHelpers (dictGetD code_by_file e "") helperNames then
            (false, issuesExtendAt perFile.2 e [helperUsageMsg helperNames])
          else perFile
        else perFile
    | none => perFile
  let missing := missingPlotFilenames combined plan
  if !missing.isEmpty then
    (false, issuesExtendAt afterHelper.2 (entry.getD "main.py") [missingPlotsMsg missing])
  else afterHelper

/-- One iteration of the attempt loop (agent.py lines 209-314), after the
validation phase: either invoke the executor (`all_valid`) or synthesize the
failed ValidationError run result (lines 300-305; its field-presence model
is `synthesizedValidationRunResult` below). -/
def attemptStep (cfg : AgentConfigM) (plan : ProjectPlan) (entry : Option String)
    (orc : LoopOracles) (attempt_idx : Nat) (code_by_file : CodeByFile) : StepOut :=
  let v := validationPhase cfg plan entry orc attempt_idx code_by_file
  let all_valid := v.1
  let issues := v.2
  if all_valid then
    let rr := orc.runner attempt_idx (combineProjectCode plan code_by_file)
    { all_valid := true, issues := issues, invoked_executor := true, run_result := rr,
      record := ⟨attempt_idx, rr.success, rr.error, issues⟩ }
  else
    let rr : RunResultS := ⟨false, "", some ("ValidationError: " ++ pyIssuesRepr issues)⟩
    { all_valid := false, issues := issues, invoked_executor := false, run_result := rr,
      record := ⟨attempt_idx, rr.success, rr.error, issues⟩ }

/-- The whole-loop state after the attempt loop finishes. -/
structure LoopOut where
  records : List AttemptRecord
  final_run_result : RunResultS
  code_by_file : CodeByFile
  iters : Nat
  executor_calls : Nat
  deriving Repr

/-- `max_attempts = 1 + max(0, configured_retry_budget)`
(agent.py line 206: `1 + max(getattr(config, "max_retries", 0), 0)`). -/
def totalAttempts (max_retries : Int) : Nat :=
  1 + (max max_retries 0).toNat

/-- The pre-loop `final_run_result` (agent.py lines 199-204). -/
def initialRunResult : RunResultS :=
  ⟨false, "", none⟩

/-- The attempt loop (agent.py lines 209-335), structured over
`remaining = total_attempts - attempt_idx`.  Per iteration: run the attempt,
append its record; stop on `success and all_valid`; else if
`attempt_idx < total_attempts - 1` (`0 < remaining'`) and the entrypoint
name is known, replace only the entrypoint's `code_by_file` entry with the
revision collaborator's output and continue, else stop.
`iters` counts iterations executed; `executor_calls` counts sandbox
invocations. -/
def loopGo (cfg : AgentConfigM) (plan : ProjectPlan) (entry : Option String)
    (orc : LoopOracles) (rem idx : Nat) (code : CodeByFile) (acc : List AttemptRecord)
    (fr : RunResultS) (it ec : Nat) : LoopOut :=
  match rem with
  | 0 => ⟨acc, fr, code, it, ec⟩
  | remaining + 1 =>
      let step := attemptStep cfg plan entry orc idx code
      let acc' := acc ++ [step.record]
      let it' := it + 1
      let ec' := ec + (if step.invoked_executor then 1 else 0)
      if step.run_result.success && step.all_valid then
        ⟨acc', step.run_result, code, it', ec'⟩
      else
        match remaining, entry with
        | rem' + 1, some e =>
            let entryCode := dictGetD code e ""
            let issuesFlat := step.issues.flatMap (fun kv => kv.2)
            let newCode := dictSet code e (orc.reviser idx entryCode step.run_result issuesFlat)
            loopGo cfg plan entry orc (rem' + 1) (idx + 1) newCode acc' step.run_result it' ec'
        | _, _ => ⟨acc', step.run_result, code, it', ec'⟩

/-- The attempt-loop portion of `solve_question_with_agent(question, config)`
(agent.py lines 198-335): from the generated `code_by_file` and the inferred
entrypoint name, run up to `totalAttempts cfg.max_retries` attempts. -/
def solveLoop (cfg : AgentConfigM) (plan : ProjectPlan) (entry : Option String)
    (orc : LoopOracles) (code0 : CodeByFile) : LoopOut :=
  loopGo cfg plan entry orc (totalAttempts cfg.max_retries) 0 code0 [] initialRunResult 0 0

/-! ## Sandboxed Executor — `execution/runner.py`, `run_generated_code` -/

/-- A Python value as it appears in the run-result dict literals of
`runner.py` / `agent.py` (bool, str, None, a list of strings, or the
literal empty dict `{}` used for `"locals"` in `agent.py`). -/
inductive PyVal where
  | pybool (b : Bool)
  | pystr (s : String)
  | pynone
  | pylist (l : List String)
  | pyemptydict
  deriving DecidableEq, Repr

/-- A Python dict literal: insertion-ordered key/value pairs. -/
abbrev PyDict := List (String × PyVal)

/-- `str | None` into a dict slot. -/
def pyOptStr : Option String → PyVal
  | some s => .pystr s
  | none => .pynone

/-- Python `d.get(k)` on a `PyDict`. -/
def pyDictGet (d : PyDict) (k : String) : Option PyVal :=
  match d.find? (fun kv => kv.1 = k) with
  | some kv => some kv.2
  | none => none

/-- Result of one `subprocess.run(..., capture_output=True, text=True)`. -/
structure SubprocResult where
  returncode : Int
  stdout : String
  stderr : String
  deriving DecidableEq, Repr

/-- Observable behaviour of the in-process (inline) execution phase:
whether `os.chdir(work_path)` raises, whether `exec(code)` / `main()`
raises (with the formatted traceback text), the captured stdout buffer
content (still read after a fault), and the sorted non-dunder globals
names. -/
structure InlineBehavior where
  chdirTrace : Option String
  execTrace : Option String
  stdoutText : String
  localsList : List String
  deriving DecidableEq, Repr

/-- Oracles for everything `run_generated_code` consumes from the outside
world: path resolution, the manifest existence test, the two subprocess
invocations (`Except` carries the traceback text when `subprocess.run`
itself raises), the traceback of the `ValueError` raised for an unsupported
`env_tool`, and the inline execution behaviour. -/
structure ExecEnv where
  resolvePath : String → String
  envYamlExists : Bool
  condaCreate : Except String SubprocResult
  valueErrorTrace : String
  runScript : Except String SubprocResult
  inline : InlineBehavior

/-- Process-wide state the executor touches: the current working
directory. -/
structure ProcState where
  cwd : String
  deriving DecidableEq, Repr

/-- What one `run_generated_code` call produces: the final process state,
the successive values taken by the process working directory during the
call (so restoration is visible), and the returned dict. -/
structure RunOutcome where
  state : ProcState
  cwdTrace : List String
  result : PyDict

/-- Intermediate classification of the isolated branch's control flow. -/
inductive IsolatedFlow where
  | provisionFail (create : SubprocResult)
  | excepted (trace : String)
  | ran (run : SubprocResult)

/-- `run_generated_code(code, work_dir, entrypoint_name, env_tool,
use_isolated_env, env_prefix)` (runner.py lines 12-182).  The entrypoint
file write and `mkdir` are file-system effects with no bearing on the
returned dict and are not modelled; `code`, `entrypoint_name` and the
`env_prefix` path only flow into those effects and into the oracle-consumed
subprocess commands.

Isolated branch (`use_isolated_env` and the manifest exists): provision via
the env tool; non-zero provisioning return code short-circuits to a failed
result dict; otherwise run the entrypoint in a subprocess; any exception in
the `try` (including the `ValueError` for an unsupported tool) is caught and
formatted as `error`.  The process cwd is never changed on this branch
(the subprocess gets `cwd=` as an argument).

Inline branch: `os.chdir(work_path)` inside `try`, execute, and a `finally`
restores the previous cwd on every exit path. -/
def runGeneratedCode (st : ProcState) (env : ExecEnv) (work_dir : String)
    (env_tool : String) (use_isolated_env : Bool) : RunOutcome :=
  let workPathStr := env.resolvePath work_dir
  if use_isolated_env && env.envYamlExists then
    let flow : IsolatedFlow :=
      if env_tool = "conda" then
        match env.condaCreate with
        | .error trace => .excepted trace
        | .ok create =>
            if create.returncode ≠ 0 then .provisionFail create
            else
              match env.runScript with
              | .error trace => .excepted trace
              | .ok run => .ran run
      else .excepted env.valueErrorTrace
    match flow with
    | .provisionFail create =>
        { state := st, cwdTrace := [],
          result :=
            [("success", .pybool false),
             ("stdout", .pystr create.stdout),
             ("stderr", .pystr create.stderr),
             ("locals", .pylist []),
             ("error", .pystr ("Environment creation failed with return code " ++
                toString create.returncode ++ ":\n" ++ create.stderr)),
             ("experiment_dir", .pystr workPathStr)] }
    | .excepted trace =>
        { state := st, cwdTrace := [],
          result :=
            [("success", .pybool false),
             ("stdout", .pystr ""),
             ("stderr", .pystr ""),
             ("locals", .pylist []),
             ("error", .pystr trace),
             ("experiment_dir", .pystr workPathStr)] }
    | .ran run =>
        let success := run.returncode = 0
        let errorText : Option String :=
          if success then none
          else some ("Script failed with return code " ++ toString run.returncode ++
            ".\nstderr:\n" ++ run.stderr)
        { state := st, cwdTrace := [],
          result :=
            [("success", .pybool success),
             ("stdout", .pystr run.stdout),
             ("stderr", .pystr run.stderr),
             ("locals", .pylist []),
             ("error", pyOptStr errorText),
             ("experiment_dir", .pystr workPathStr)] }
  else
    let cwdBefore := st.cwd
    let tryOut : List String × Bool × Option String :=
      match env.inline.chdirTrace with
      | some trace => ([], false, some trace)
      | none =>
          match env.inline.execTrace with
          | some trace => ([workPathStr], false, some trace)
          | none => ([workPathStr], true, none)
    { state := ⟨cwdBefore⟩,
      cwdTrace := tryOut.1 ++ [cwdBefore],
      result :=
        [("success", .pybool tryOut.2.1),
         ("stdout", .pystr env.inline.stdoutText),
         ("locals", .pylist env.inline.localsList),
         ("error", pyOptStr tryOut.2.2),
         ("experiment_dir", .pystr workPathStr)] }

/-- The controller-synthesized validation-failure run result
(agent.py lines 300-305) as the dict literal it is in the source. -/
def synthesizedValidationRunResult (issues : List (String × List String)) : PyDict :=
  [("success", .pybool false),
   ("stdout", .pystr ""),
   ("locals", .pyemptydict),
   ("error", .pystr ("ValidationError: " ++ pyIssuesRepr issues))]

/-! ## Fail-open JSON extraction — `validation/spec_critic.py`, `_parse_llm_json` -/

/-- Index of the last occurrence of `c` in `l` (Python `str.rfind`). -/
def lastIdxOf (l : List Char) (c : Char) : Option Nat :=
  match l.reverse.findIdx? (fun x => x = c) with
  | some i => some (l.length - 1 - i)
  | none => none

/-- `_parse_llm_json(content)` (spec_critic.py lines 26-55).  `loads` models
`json.loads` projected through the two reads `spec_critic` performs on the
resulting object: `loads s = none` models both a raising `json.loads` and a
successful parse to a non-dict (both fall through in the source);
`loads s = some r` models a successful parse to a dict.  Strip the content,
try a direct parse; on failure try the first-`{`-to-last-`}` snippet; if
neither yields a dict, fail open with `{"ok": True, "issues_by_file": {}}`. -/
def parseLlmJson (loads : String → Option SpecCriticResult) (content : String) :
    SpecCriticResult :=
  let content := pyStrip content
  match loads content with
  | some obj => obj
  | none =>
      let cs := content.data
      match cs.findIdx? (fun c => c = '\x7b'), lastIdxOf cs '\x7d' with
      | some startIdx, some endIdx =>
          if startIdx < endIdx then
            match loads ⟨(cs.drop startIdx).take (endIdx + 1 - startIdx)⟩ with
            | some obj => obj
            | none => ⟨true, []⟩
          else ⟨true, []⟩
      | _, _ => ⟨true, []⟩

/-! ## Spec-side definitions (for the refinement claims) -/

/-- Spec-modelled (§4.1 / §8): "an import-like statement references the
module name with token boundaries": some decomposition of the code exhibits
an `import` or `from` keyword at a word boundary, at least one whitespace
character, then the module name ending at a word boundary. -/
def SpecImportLikeRef (mod code : String) : Prop :=
  ∃ (kw pre sp post : List Char),
    (kw = "import".data ∨ kw = "from".data) ∧
    code.data = pre ++ kw ++ sp ++ mod.data ++ post ∧
    optWord pre.getLast? = false ∧
    sp ≠ [] ∧ (∀ c ∈ sp, isPySpace c = true) ∧
    boundaryB (some (mod.data.getLastD (sp.getLastD ' '))) post.head? = true

/-- Modelled from the spec: §4.1 "a case-sensitive print-style statement
emitting `Answer:` followed by a value" — the marker prefix
`print ( quote Answer:` followed, after optional whitespace, by at least one
further character (the weakest reading of "followed by a value"; any
stronger reading of "a value" implies this one).  The source regex in
`validator.py` checks no such continuation. -/
def specAnswerValueAt (l : List Char) : Bool :=
  match dropLit "print".data l with
  | some r1 =>
      skipSpacesThen (fun r2 =>
        match r2 with
        | c :: r3 =>
            c = '(' &&
              skipSpacesThen (fun r4 =>
                match r4 with
                | q :: r5 =>
                    (q = '\x27' || q = '\x22') &&
                      (match dropLit "Answer:".data r5 with
                       | some r6 => skipSpacesThen (fun r7 => !r7.isEmpty) r6
                       | none => false)
                | [] => false) r3
        | [] => false) r1
  | none => false

/-- Modelled from the spec: whether the code contains, anywhere, a
print-style `Answer:` marker followed by a value (see `specAnswerValueAt`). -/
def specHasAnswerPrintValue (code : String) : Bool :=
  scanAny specAnswerValueAt code.data

/-- The last character of the prefix consumed by a scan, `prev` when the
prefix is empty (bookkeeping for `scanPat` decompositions). -/
def prevOf (prev : Option Char) (pre : List Char) : Option Char :=
  match pre.getLast? with
  | some c => some c
  | none => prev

/-- All suffixes of the subject satisfy `p` (the decidable dual of the
`re.search` scan, used to state "every occurrence is interior"). -/
def allSuffixesSatisfy (p : List Char → Bool) : List Char → Bool
  | [] => p []
  | c :: rest => p (c :: rest) && allSuffixesSatisfy p rest

/-- Every occurrence of `mod` in `code` is immediately followed by a word
character — i.e. `mod` occurs only as a proper interior substring of longer
identifiers, never with a trailing token boundary. -/
def occursOnlyInterior (mod code : String) : Bool :=
  allSuffixesSatisfy
    (fun l => !(mod.data.isPrefixOf l) || optWord (l.drop mod.data.length).head?)
    code.data

/-- The default safety rule set of `AgentConfig` (config.py lines 15-30). -/
def defaultRules : RuleConfig :=
  ⟨["os", "subprocess", "shutil", "socket", "requests"],
   ["os.remove", "os.rmdir", "shutil.rmtree"],
   true⟩

/-! # Theorems -/

/-- **C7.** The Static Validator is deterministic and side-effect free (a
pure function of `(code, rules, require_answer_print)`: equal inputs give
equal `(is_valid, issues)` pairs), its issue list is always the module
segment, then the call segment, then the fence segment, then the marker
segment, in that order, `is_valid` is exactly emptiness of the issue list,
and a completely clean file yields `(true, [])`. -/
theorem claim_C7 (code code2 : String) (cfg cfg2 : RuleConfig) (r r2 : Option Bool) :
    (code = code2 → cfg = cfg2 → r = r2 →
      validate_code code cfg r = validate_code code2 cfg2 r2)
    ∧ (validate_code code cfg r).2 =
        moduleIssues cfg code ++ callIssues cfg code ++ fenceIssues code ++
          markerIssues cfg code r
    ∧ (validate_code code cfg r).1 = (validate_code code cfg r).2.isEmpty
    ∧ (moduleIssues cfg code = [] → callIssues cfg code = [] → fenceIssues code = [] →
        markerIssues cfg code r = [] → validate_code code cfg r = (true, [])) := by
  refine ⟨?_, rfl, rfl, ?_⟩
  · rintro rfl rfl rfl; rfl
  · intro h1 h2 h3 h4
    simp [validate_code, h1, h2, h3, h4]

/-- Witness for C7 at a concrete clean entrypoint file and the default
rules. -/
theorem claim_C7_witness :
    validate_code "print(\x27Answer:\x27, 42)" defaultRules (some true) = (true, []) :=
  (claim_C7 "print(\x27Answer:\x27, 42)" "print(\x27Answer:\x27, 42)" defaultRules defaultRules
    (some true) (some true)).2.2.2 (by decide) (by decide) (by decide) (by decide)

/-- **C4.** Answer extraction is a pure total Lean function (all failure
modes are returned values); it selects the last line containing `Answer:`;
with no marker line it returns the no-marker error; with a marker line but
no numeric token it returns the distinct numeric-parse error; and on
`"noise\nAnswer: 3.14\nmore noise"` it returns value `3.14` (the exact
rational `mkRat 157 50`) with `parse_success = true`. -/
theorem claim_C4 (stdout : String) :
    parse_answer_from_stdout "noise\nAnswer: 3.14\nmore noise" =
      ⟨some "Answer: 3.14", some (mkRat 157 50), true, none⟩
    ∧ ((∀ line ∈ pySplitlines stdout, ¬ (strContains line "Answer:" = true)) →
        parse_answer_from_stdout stdout = ⟨none, none, false, some pyNoMarkerMsg⟩)
    ∧ (∀ L, (pySplitlines stdout).reverse.find? (fun line => strContains line "Answer:") = some L →
        findAnswerNum (pyStrip L).data = none →
        parse_answer_from_stdout stdout = ⟨some (pyStrip L), none, false, some pyNumParseMsg⟩)
    ∧ (∀ L, (pySplitlines stdout).reverse.find? (fun line => strContains line "Answer:") = some L →
        (parse_answer_from_stdout stdout).raw_line = some (pyStrip L))
    ∧ pyNumParseMsg ≠ pyNoMarkerMsg := by
  refine ⟨by decide, ?_, ?_, ?_, by decide⟩
  · intro h
    have hn : (pySplitlines stdout).reverse.find?
        (fun line => strContains line "Answer:") = none := by
      rw [List.find?_eq_none]
      intro a ha
      simpa using h a (List.mem_reverse.mp ha)
    simp [parse_answer_from_stdout, hn]
  · intro L hL hnum
    simp [parse_answer_from_stdout, hL, hnum]
  · intro L hL
    cases hnum : findAnswerNum (pyStrip L).data <;>
      simp [parse_answer_from_stdout, hL, hnum]

/-- Witness for C4: the no-marker case and the distinct numeric-parse-error
case at concrete stdouts. -/
theorem claim_C4_witness :
    parse_answer_from_stdout "xyz" = ⟨none, none, false, some pyNoMarkerMsg⟩
    ∧ parse_answer_from_stdout "Answer: not-a-number" =
        ⟨some "Answer: not-a-number", none, false, some pyNumParseMsg⟩ := by
  constructor
  · exact (claim_C4 "xyz").2.1 (by decide)
  · exact ((claim_C4 "Answer: not-a-number").2.2.1 "Answer: not-a-number"
      (by decide) (by decide)).trans (by decide)

/-- **C2.** In every attempt, the Sandboxed Executor is invoked exactly when
the merged verdict `all_valid` is true; when `all_valid` is false the
attempt's run result is synthesized as `success = false`, empty stdout, and
`error` the ValidationError summary string of the merged issues; when
`all_valid` is true the run result is the executor's result on the combined
code. -/
theorem claim_C2 (cfg : AgentConfigM) (plan : ProjectPlan) (entry : Option String)
    (orc : LoopOracles) (idx : Nat) (code : CodeByFile) :
    (attemptStep cfg plan entry orc idx code).invoked_executor =
      (attemptStep cfg plan entry orc idx code).all_valid
    ∧ (attemptStep cfg plan entry orc idx code).all_valid =
        (validationPhase cfg plan entry orc idx code).1
    ∧ ((attemptStep cfg plan entry orc idx code).all_valid = false →
        (attemptStep cfg plan entry orc idx code).run_result =
          ⟨false, "", some ("ValidationError: " ++
            pyIssuesRepr (attemptStep cfg plan entry orc idx code).issues)⟩)
    ∧ ((attemptStep cfg plan entry orc idx code).all_valid = true →
        (attemptStep cfg plan entry orc idx code).run_result =
          orc.runner idx (combineProjectCode plan code)) := by
  cases hv : (validationPhase cfg plan entry orc idx code).1 <;>
    simp [attemptStep, hv]

/-- Witness for C2 at a concrete failing-validation attempt (entrypoint file
missing the required answer marker). -/
theorem claim_C2_witness :
    (attemptStep ⟨2, [], [], true⟩ ⟨[⟨"main.py", some "entrypoint"⟩], []⟩ (some "main.py")
        ⟨fun _ _ => .result ⟨true, []⟩, fun _ _ => ⟨true, "", none⟩, fun _ _ _ _ => ""⟩
        0 [("main.py", "x = 1")]).run_result =
      ⟨false, "", some ("ValidationError: " ++
        pyIssuesRepr (attemptStep ⟨2, [], [], true⟩ ⟨[⟨"main.py", some "entrypoint"⟩], []⟩
          (some "main.py")
          ⟨fun _ _ => .result ⟨true, []⟩, fun _ _ => ⟨true, "", none⟩, fun _ _ _ _ => ""⟩
          0 [("main.py", "x = 1")]).issues)⟩ :=
  (claim_C2 ⟨2, [], [], true⟩ ⟨[⟨"main.py", some "entrypoint"⟩], []⟩ (some "main.py")
    ⟨fun _ _ => .result ⟨true, []⟩, fun _ _ => ⟨true, "", none⟩, fun _ _ _ _ => ""⟩
    0 [("main.py", "x = 1")]).2.2.1 (by decide)

/-- **C9.** The executor restores the process working directory to its
pre-call value on every exit path before returning: the final state's cwd
equals the initial one for every oracle behaviour (in particular whether the
inline-executed code completes normally or raises), and on the inline path
the last value taken by the process cwd during the call is the pre-call
value. -/
theorem claim_C9 (st : ProcState) (env : ExecEnv) (work_dir env_tool : String)
    (iso : Bool) :
    (runGeneratedCode st env work_dir env_tool iso).state.cwd = st.cwd
    ∧ ((iso && env.envYamlExists) = false →
        (runGeneratedCode st env work_dir env_tool iso).cwdTrace.getLast? = some st.cwd) := by
  constructor
  · unfold runGeneratedCode
    dsimp only
    split
    · split <;> rfl
    · rfl
  · intro h
    unfold runGeneratedCode
    rw [h]
    cases env.inline.chdirTrace <;> cases env.inline.execTrace <;> simp

/-- Witness for C9: a concrete inline run whose executed code raises; the
trace visits the work dir and ends restored at the original cwd. -/
theorem claim_C9_witness :
    (runGeneratedCode ⟨"/home/user"⟩
        ⟨fun s => s, false, .ok ⟨0, "", ""⟩, "", .ok ⟨0, "", ""⟩,
          ⟨none, some "Traceback: boom", "partial", []⟩⟩
        "/work" "conda" false).cwdTrace.getLast? = some "/home/user" :=
  (claim_C9 ⟨"/home/user"⟩
    ⟨fun s => s, false, .ok ⟨0, "", ""⟩, "", .ok ⟨0, "", ""⟩,
      ⟨none, some "Traceback: boom", "partial", []⟩⟩
    "/work" "conda" false).2 (by decide)

/-- Counterexample to **C8** as stated: on the inline execution path the
returned run-result dict has *no* `stderr` key at all (runner.py lines
175-182 list only success, stdout, locals, error, experiment_dir), and the
controller-synthesized validation-failure dict (agent.py lines 300-305) has
neither a `stderr` nor an `experiment_dir` key. -/
theorem claim_C8_counterexample :
    pyDictGet (runGeneratedCode ⟨"/home/user"⟩
        ⟨fun s => s, false, .ok ⟨0, "", ""⟩, "", .ok ⟨0, "", ""⟩, ⟨none, none, "", []⟩⟩
        "/work" "conda" false).result "stderr" = none
    ∧ pyDictGet (synthesizedValidationRunResult []) "stderr" = none
    ∧ pyDictGet (synthesizedValidationRunResult []) "experiment_dir" = none := by
  refine ⟨?_, by decide, by decide⟩
  decide

/-- **C8 (amended).** Every executor path produces a run-result dict whose
key list is fixed by the branch taken: the two isolated sub-paths
(provisioning failure and isolated run, as well as a caught in-`try`
exception) carry `success, stdout, stderr, locals, error, experiment_dir`,
while the inline path carries `success, stdout, locals, error,
experiment_dir` — without `stderr`; `experiment_dir` always equals the
resolved absolute `work_dir` on every executor path.  The
controller-synthesized validation-failure dict carries only
`success, stdout, locals, error` (no `stderr`, no `experiment_dir`), with
`success = False`, empty stdout, and the ValidationError summary string. -/
theorem claim_C8 (st : ProcState) (env : ExecEnv) (work_dir env_tool : String)
    (iso : Bool) (issues : List (String × List String)) :
    ((runGeneratedCode st env work_dir env_tool iso).result.map Prod.fst =
      if iso && env.envYamlExists then
        ["success", "stdout", "stderr", "locals", "error", "experiment_dir"]
      else
        ["success", "stdout", "locals", "error", "experiment_dir"])
    ∧ pyDictGet (runGeneratedCode st env work_dir env_tool iso).result "experiment_dir" =
        some (.pystr (env.resolvePath work_dir))
    ∧ (synthesizedValidationRunResult issues).map Prod.fst =
        ["success", "stdout", "locals", "error"]
    ∧ pyDictGet (synthesizedValidationRunResult issues) "success" = some (.pybool false)
    ∧ pyDictGet (synthesizedValidationRunResult issues) "stdout" = some (.pystr "")
    ∧ pyDictGet (synthesizedValidationRunResult issues) "error" =
        some (.pystr ("ValidationError: " ++ pyIssuesRepr issues)) := by
  refine ⟨?_, ?_, rfl, rfl, rfl, rfl⟩
  · unfold runGeneratedCode
    dsimp only
    split
    · split <;> simp_all
    · simp_all
  · unfold runGeneratedCode
    dsimp only
    split
    · split <;> simp [pyDictGet]
    · simp [pyDictGet]

/-- **C10.** The Attempt Controller is fail-open toward the semantic
critic: an attempt in which the critic raises is *identical* to the same
attempt with a critic returning `ok = true` and empty issues (so a failed
critique alone never sets `all_valid` to false and never blocks execution);
and `_parse_llm_json` maps any content on which no JSON-dict parse succeeds
(raising or non-dict `json.loads` on the stripped content and on the
brace-delimited snippet) to the fail-open `{ok: true, issues_by_file: {}}`. -/
theorem claim_C10 (cfg : AgentConfigM) (plan : ProjectPlan) (entry : Option String)
    (critic1 critic2 : Nat → CodeByFile → CriticBehavior)
    (runner : Nat → String → RunResultS)
    (reviser : Nat → String → RunResultS → List String → String)
    (idx : Nat) (code : CodeByFile) :
    (critic1 idx code = .exn → critic2 idx code = .result ⟨true, []⟩ →
      attemptStep cfg plan entry ⟨critic1, runner, reviser⟩ idx code =
        attemptStep cfg plan entry ⟨critic2, runner, reviser⟩ idx code)
    ∧ (∀ (loads : String → Option SpecCriticResult) (content : String),
        (∀ s, loads s = none) → parseLlmJson loads content = ⟨true, []⟩) := by
  constructor
  · intro h1 h2
    have : validationPhase cfg plan entry ⟨critic1, runner, reviser⟩ idx code =
        validationPhase cfg plan entry ⟨critic2, runner, reviser⟩ idx code := by
      unfold validationPhase
      rw [show (LoopOracles.mk critic1 runner reviser).critic = critic1 from rfl,
        show (LoopOracles.mk critic2 runner reviser).critic = critic2 from rfl, h1, h2]
    unfold attemptStep
    rw [this]
  · intro loads content h
    unfold parseLlmJson
    simp only [h]
    rcases h1 : (pyStrip content).data.findIdx? (fun c => c = '\x7b') with _ | s <;>
      rcases h2 : lastIdxOf (pyStrip content).data '\x7d' with _ | e <;>
        simp [h1, h2, h]

/-- Witness for C10: a concrete attempt whose critic raises equals the same
attempt with a clean critic, and a concrete non-JSON content fails open. -/
theorem claim_C10_witness :
    attemptStep ⟨2, [], [], true⟩ ⟨[⟨"main.py", some "entrypoint"⟩], []⟩ (some "main.py")
        ⟨fun _ _ => .exn, fun _ _ => ⟨true, "", none⟩, fun _ _ _ _ => ""⟩
        0 [("main.py", "print(\x27Answer:\x27, 1)")] =
      attemptStep ⟨2, [], [], true⟩ ⟨[⟨"main.py", some "entrypoint"⟩], []⟩ (some "main.py")
        ⟨fun _ _ => .result ⟨true, []⟩, fun _ _ => ⟨true, "", none⟩, fun _ _ _ _ => ""⟩
        0 [("main.py", "print(\x27Answer:\x27, 1)")]
    ∧ parseLlmJson (fun _ => none) "no json here" = ⟨true, []⟩ := by
  constructor
  · exact (claim_C10 ⟨2, [], [], true⟩ ⟨[⟨"main.py", some "entrypoint"⟩], []⟩ (some "main.py")
      (fun _ _ => .exn) (fun _ _ => .result ⟨true, []⟩)
      (fun _ _ => ⟨true, "", none⟩) (fun _ _ _ _ => "")
      0 [("main.py", "print(\x27Answer:\x27, 1)")]).1 rfl rfl
  · exact (claim_C10 ⟨2, [], [], true⟩ ⟨[], []⟩ none
      (fun _ _ => .exn) (fun _ _ => .exn)
      (fun _ _ => ⟨true, "", none⟩) (fun _ _ _ _ => "")
      0 []).2 (fun _ => none) "no json here" (fun _ => rfl)

/-- The record an attempt appends carries exactly the attempt's run-result
success flag (both branches of `attemptStep`). -/
theorem attemptStep_record_success (cfg : AgentConfigM) (plan : ProjectPlan)
    (entry : Option String) (orc : LoopOracles) (idx : Nat) (code : CodeByFile) :
    (attemptStep cfg plan entry orc idx code).record.success =
      (attemptStep cfg plan entry orc idx code).run_result.success := by
  unfold attemptStep
  dsimp only
  split <;> rfl

/-- Length bound for the attempt loop: at most `remaining` further records
are appended. -/
theorem loopGo_records_length (cfg : AgentConfigM) (plan : ProjectPlan)
    (entry : Option String) (orc : LoopOracles) :
    ∀ (rem idx : Nat) (code : CodeByFile) (acc : List AttemptRecord) (fr : RunResultS)
      (it ec : Nat),
      (loopGo cfg plan entry orc rem idx code acc fr it ec).records.length ≤
        acc.length + rem := by
  intro rem
  induction rem with
  | zero => intro idx code acc fr it ec; simp [loopGo]
  | succ n ih =>
      intro idx code acc fr it ec
      rw [loopGo.eq_def]
      dsimp only
      split
      · simp
      · split
        · refine le_trans (ih _ _ _ _ _ _) ?_
          simp
          omega
        · simp

/-- Exactly one record is appended per iteration executed: the growth of the
record list equals the growth of the iteration counter. -/
theorem loopGo_records_iters (cfg : AgentConfigM) (plan : ProjectPlan)
    (entry : Option String) (orc : LoopOracles) :
    ∀ (rem idx : Nat) (code : CodeByFile) (acc : List AttemptRecord) (fr : RunResultS)
      (it ec : Nat),
      (loopGo cfg plan entry orc rem idx code acc fr it ec).records.length + it =
        (loopGo cfg plan entry orc rem idx code acc fr it ec).iters + acc.length := by
  intro rem
  induction rem with
  | zero => intro idx code acc fr it ec; simp [loopGo]; omega
  | succ n ih =>
      intro idx code acc fr it ec
      rw [loopGo.eq_def]
      dsimp only
      split
      · simp; omega
      · split
        · rename_i rem' e hcond
          have h := ih (idx + 1)
            (dictSet code e (orc.reviser idx (dictGetD code e "")
              (attemptStep cfg plan (some e) orc idx code).run_result
              ((attemptStep cfg plan (some e) orc idx code).issues.flatMap fun kv => kv.2)))
            (acc ++ [(attemptStep cfg plan (some e) orc idx code).record])
            (attemptStep cfg plan (some e) orc idx code).run_result (it + 1)
            (ec + if (attemptStep cfg plan (some e) orc idx code).invoked_executor then 1 else 0)
          simp only [List.length_append, List.length_singleton, Nat.succ_eq_add_one] at h ⊢
          omega
        · simp; omega

/-- When the entrypoint name is known and every attempt's run result fails,
the loop never stops early: it appends exactly `remaining` records. -/
theorem loopGo_all_fail_length (cfg : AgentConfigM) (plan : ProjectPlan) (e : String)
    (orc : LoopOracles)
    (hfail : ∀ i c, (attemptStep cfg plan (some e) orc i c).run_result.success = false) :
    ∀ (rem idx : Nat) (code : CodeByFile) (acc : List AttemptRecord) (fr : RunResultS)
      (it ec : Nat),
      (loopGo cfg plan (some e) orc rem idx code acc fr it ec).records.length =
        acc.length + rem := by
  intro rem
  induction rem with
  | zero => intro idx code acc fr it ec; simp [loopGo]
  | succ n ih =>
      intro idx code acc fr it ec
      cases n with
      | zero =>
          rw [loopGo.eq_def]
          simp [hfail idx code]
      | succ m =>
          rw [loopGo.eq_def]
          simp only [hfail idx code, Bool.false_and, Bool.false_eq_true, if_false]
          rw [ih]
          simp
          omega

/-- When every attempt's run result fails, every record in the final log
that is not inherited from the accumulator has `success = false`. -/
theorem loopGo_all_fail_success (cfg : AgentConfigM) (plan : ProjectPlan) (e : String)
    (orc : LoopOracles)
    (hfail : ∀ i c, (attemptStep cfg plan (some e) orc i c).run_result.success = false) :
    ∀ (rem idx : Nat) (code : CodeByFile) (acc : List AttemptRecord) (fr : RunResultS)
      (it ec : Nat),
      ∀ rec ∈ (loopGo cfg plan (some e) orc rem idx code acc fr it ec).records,
        rec ∈ acc ∨ rec.success = false := by
  intro rem
  induction rem with
  | zero => intro idx code acc fr it ec rec hrec; exact Or.inl hrec
  | succ n ih =>
      intro idx code acc fr it ec rec hrec
      have hstep : (attemptStep cfg plan (some e) orc idx code).record.success = false := by
        rw [attemptStep_record_success]; exact hfail idx code
      cases n with
      | zero =>
          rw [loopGo.eq_def] at hrec
          simp only [hfail idx code, Bool.false_and, Bool.false_eq_true, if_false,
            List.mem_append, List.mem_singleton] at hrec
          rcases hrec with h | h
          · exact Or.inl h
          · exact Or.inr (h ▸ hstep)
      | succ m =>
          rw [loopGo.eq_def] at hrec
          simp only [hfail idx code, Bool.false_and, Bool.false_eq_true, if_false] at hrec
          rcases ih _ _ _ _ _ _ rec hrec with h | h
          · simp only [List.mem_append, List.mem_singleton] at h
            rcases h with h | h
            · exact Or.inl h
            · exact Or.inr (h ▸ hstep)
          · exact Or.inr h

/-- A record list whose members all have `success = false` maps to a
`false` replicate. -/
theorem records_map_success_false :
    ∀ (l : List AttemptRecord), (∀ rec ∈ l, rec.success = false) →
      (l.map fun rec => rec.success) = List.replicate l.length false := by
  intro l
  induction l with
  | nil => intro _; rfl
  | cons a t ih =>
      intro h
      simp only [List.map_cons, List.length_cons, List.replicate_succ]
      rw [h a (List.mem_cons_self a t), ih fun rec hr => h rec (List.mem_cons_of_mem a hr)]

/-- **C1.** The control loop performs at most
`max_attempts = 1 + max(0, retry_budget)` iterations and appends exactly one
`AttemptRecord` per iteration executed (`len(AttemptLog) = iterations ≤
max_attempts`); if attempt 0 succeeds with a valid validation verdict the
loop stops with exactly that one record; and with `retry_budget = 2`, a
known entrypoint name, and every attempt failing, the log has exactly 3
records with `success = false` at every index. -/
theorem claim_C1 (cfg : AgentConfigM) (plan : ProjectPlan) (entry : Option String)
    (orc : LoopOracles) (code0 : CodeByFile) :
    (solveLoop cfg plan entry orc code0).records.length =
      (solveLoop cfg plan entry orc code0).iters
    ∧ (solveLoop cfg plan entry orc code0).records.length ≤ totalAttempts cfg.max_retries
    ∧ ((attemptStep cfg plan entry orc 0 code0).run_result.success = true →
        (attemptStep cfg plan entry orc 0 code0).all_valid = true →
        (solveLoop cfg plan entry orc code0).records =
          [(attemptStep cfg plan entry orc 0 code0).record])
    ∧ (∀ e, cfg.max_retries = 2 → entry = some e →
        (∀ i c, (attemptStep cfg plan entry orc i c).run_result.success = false) →
        (solveLoop cfg plan entry orc code0).records.length = 3
        ∧ ((solveLoop cfg plan entry orc code0).records.map fun rec => rec.success) =
            [false, false, false]) := by
  refine ⟨?_, ?_, ?_, ?_⟩
  · have h := loopGo_records_iters cfg plan entry orc (totalAttempts cfg.max_retries) 0 code0
      [] initialRunResult 0 0
    simpa [solveLoop] using h
  · have h := loopGo_records_length cfg plan entry orc (totalAttempts cfg.max_retries) 0 code0
      [] initialRunResult 0 0
    simpa [solveLoop] using h
  · intro h1 h2
    have ht : totalAttempts cfg.max_retries = (max cfg.max_retries 0).toNat + 1 :=
      Nat.add_comm 1 _
    unfold solveLoop
    rw [ht, loopGo.eq_def]
    dsimp only
    simp [h1, h2]
  · intro e h2 hE hfail
    subst hE
    have ht : totalAttempts cfg.max_retries = 3 := by rw [h2]; rfl
    have hlen : (solveLoop cfg plan (some e) orc code0).records.length = 3 := by
      unfold solveLoop
      rw [ht, loopGo_all_fail_length cfg plan e orc hfail]
      rfl
    refine ⟨hlen, ?_⟩
    have hall := loopGo_all_fail_success cfg plan e orc hfail
      (totalAttempts cfg.max_retries) 0 code0 [] initialRunResult 0 0
    have hsucc : ∀ rec ∈ (solveLoop cfg plan (some e) orc code0).records,
        rec.success = false := by
      intro rec hrec
      rcases hall rec hrec with h | h
      · exact absurd h (List.not_mem_nil rec)
      · exact h
    rw [records_map_success_false _ hsucc, hlen]
    rfl

/-- Witness for C1: with retry budget 2, a successful attempt 0 stops the
loop at one record, and an always-failing runner yields exactly three
all-failed records. -/
theorem claim_C1_witness :
    (solveLoop ⟨2, [], [], true⟩ ⟨[⟨"main.py", some "entrypoint"⟩], []⟩ (some "main.py")
        ⟨fun _ _ => .result ⟨true, []⟩, fun _ _ => ⟨true, "Answer: 3", none⟩, fun _ _ _ _ => ""⟩
        [("main.py", "print(\x27Answer:\x27, 1)")]).records =
      [(attemptStep ⟨2, [], [], true⟩ ⟨[⟨"main.py", some "entrypoint"⟩], []⟩ (some "main.py")
        ⟨fun _ _ => .result ⟨true, []⟩, fun _ _ => ⟨true, "Answer: 3", none⟩, fun _ _ _ _ => ""⟩
        0 [("main.py", "print(\x27Answer:\x27, 1)")]).record]
    ∧ (solveLoop ⟨2, [], [], true⟩ ⟨[⟨"main.py", some "entrypoint"⟩], []⟩ (some "main.py")
        ⟨fun _ _ => .result ⟨true, []⟩, fun _ _ => ⟨false, "", some "err"⟩, fun _ _ _ _ => ""⟩
        [("main.py", "print(\x27Answer:\x27, 1)")]).records.length = 3
    ∧ ((solveLoop ⟨2, [], [], true⟩ ⟨[⟨"main.py", some "entrypoint"⟩], []⟩ (some "main.py")
        ⟨fun _ _ => .result ⟨true, []⟩, fun _ _ => ⟨false, "", some "err"⟩, fun _ _ _ _ => ""⟩
        [("main.py", "print(\x27Answer:\x27, 1)")]).records.map fun rec => rec.success) =
        [false, false, false] := by
  have hfail : ∀ i c,
      (attemptStep ⟨2, [], [], true⟩ ⟨[⟨"main.py", some "entrypoint"⟩], []⟩ (some "main.py")
        ⟨fun _ _ => .result ⟨true, []⟩, fun _ _ => ⟨false, "", some "err"⟩, fun _ _ _ _ => ""⟩
        i c).run_result.success = false := by
    intro i c
    unfold attemptStep
    dsimp only
    split <;> rfl
  have h3 := (claim_C1 ⟨2, [], [], true⟩ ⟨[⟨"main.py", some "entrypoint"⟩], []⟩
    (some "main.py")
    ⟨fun _ _ => .result ⟨true, []⟩, fun _ _ => ⟨false, "", some "err"⟩, fun _ _ _ _ => ""⟩
    [("main.py", "print(\x27Answer:\x27, 1)")]).2.2.2 "main.py" rfl rfl hfail
  exact ⟨(claim_C1 ⟨2, [], [], true⟩ ⟨[⟨"main.py", some "entrypoint"⟩], []⟩ (some "main.py")
    ⟨fun _ _ => .result ⟨true, []⟩, fun _ _ => ⟨true, "Answer: 3", none⟩, fun _ _ _ _ => ""⟩
    [("main.py", "print(\x27Answer:\x27, 1)")]).2.2.1 (by decide) (by decide), h3.1, h3.2⟩

/-- In-place value replacement at key `k` leaves `find?` for any other key
unchanged. -/
theorem find?_setValue_ne (k v k2 : String) (h : k2 ≠ k) :
    ∀ t : List (String × String),
      (t.map fun kv => if kv.1 = k then (kv.1, v) else kv).find? (fun kv => kv.1 = k2) =
        t.find? (fun kv => kv.1 = k2)
  | [] => rfl
  | a :: t => by
      by_cases ha : a.1 = k
      · have ha2 : ¬ (a.1 = k2) := fun hh => h (hh ▸ ha)
        rw [List.map_cons, if_pos ha,
          List.find?_cons_of_neg _ (by simpa using ha2),
          List.find?_cons_of_neg _ (by simpa using ha2)]
        exact find?_setValue_ne k v k2 h t
      · rw [List.map_cons, if_neg ha]
        by_cases ha2 : a.1 = k2
        · rw [List.find?_cons_of_pos _ (by simpa using ha2),
            List.find?_cons_of_pos _ (by simpa using ha2)]
        · rw [List.find?_cons_of_neg _ (by simpa using ha2),
            List.find?_cons_of_neg _ (by simpa using ha2)]
          exact find?_setValue_ne k v k2 h t

/-- A Python dict assignment `d[k] = v` leaves the binding of every other
key untouched. -/
theorem dictSet_find?_ne (d : List (String × String)) (k v k2 : String) (h : k2 ≠ k) :
    (dictSet d k v).find? (fun kv => kv.1 = k2) = d.find? (fun kv => kv.1 = k2) := by
  unfold dictSet
  split
  · exact find?_setValue_ne k v k2 h d
  · rw [List.find?_append,
      List.find?_cons_of_neg _ (by simp only [decide_eq_true_eq]; exact fun hh => h hh.symm)]
    simp

/-- `dictHasKey` is membership in the key list. -/
theorem dictHasKey_iff_mem_keys (d : List (String × String)) (k : String) :
    dictHasKey d k = true ↔ k ∈ d.map Prod.fst := by
  unfold dictHasKey
  rw [List.find?_isSome]
  simp only [List.mem_map, decide_eq_true_eq]

/-- `d[k] = v` on a dict that already has `k` leaves the key list
unchanged. -/
theorem dictSet_keys_of_mem (d : List (String × String)) (k v : String)
    (h : dictHasKey d k = true) :
    (dictSet d k v).map Prod.fst = d.map Prod.fst := by
  unfold dictSet
  rw [if_pos h, List.map_map]
  refine List.map_congr_left ?_
  intro kv _
  by_cases hk : kv.1 = k <;> simp [hk]

/-- `d[k] = v` on a dict without `k` appends the key at the end. -/
theorem dictSet_keys_of_not_mem (d : List (String × String)) (k v : String)
    (h : dictHasKey d k = false) :
    (dictSet d k v).map Prod.fst = d.map Prod.fst ++ [k] := by
  unfold dictSet
  rw [if_neg (by simp [h])]
  simp

/-- After `d[k] = v` the key `k` is present. -/
theorem dictSet_hasKey_self (d : List (String × String)) (k v : String) :
    dictHasKey (dictSet d k v) k = true := by
  rw [dictHasKey_iff_mem_keys]
  cases h : dictHasKey d k
  · rw [dictSet_keys_of_not_mem d k v h]; simp
  · rw [dictSet_keys_of_mem d k v h]
    rw [dictHasKey_iff_mem_keys] at h
    exact h

/-- Loop frame: the binding of every key other than the entrypoint's is
unchanged by the whole attempt loop. -/
theorem loopGo_frame (cfg : AgentConfigM) (plan : ProjectPlan) (entry : Option String)
    (orc : LoopOracles) :
    ∀ (rem idx : Nat) (code : CodeByFile) (acc : List AttemptRecord) (fr : RunResultS)
      (it ec : Nat) (k : String),
      (∀ e, entry = some e → k ≠ e) →
      (loopGo cfg plan entry orc rem idx code acc fr it ec).code_by_file.find?
          (fun kv => kv.1 = k) =
        code.find? (fun kv => kv.1 = k) := by
  intro rem
  induction rem with
  | zero => intro idx code acc fr it ec k _; simp [loopGo]
  | succ n ih =>
      intro idx code acc fr it ec k hk
      rw [loopGo.eq_def]
      dsimp only
      split
      · rfl
      · split
        · rename_i rem' e hcond
          rw [ih _ _ _ _ _ _ k hk]
          exact dictSet_find?_ne code e _ k (hk e rfl)
        · rfl

/-- Loop key-set invariant when the entrypoint key is present: the key list
never changes. -/
theorem loopGo_keys_of_entry_mem (cfg : AgentConfigM) (plan : ProjectPlan) (e : String)
    (orc : LoopOracles) :
    ∀ (rem idx : Nat) (code : CodeByFile) (acc : List AttemptRecord) (fr : RunResultS)
      (it ec : Nat),
      dictHasKey code e = true →
      (loopGo cfg plan (some e) orc rem idx code acc fr it ec).code_by_file.map Prod.fst =
        code.map Prod.fst := by
  intro rem
  induction rem with
  | zero => intro idx code acc fr it ec _; simp [loopGo]
  | succ n ih =>
      intro idx code acc fr it ec hmem
      cases n with
      | zero =>
          rw [loopGo.eq_def]
          dsimp only
          split <;> rfl
      | succ m =>
          rw [loopGo.eq_def]
          dsimp only
          split
          · rfl
          · refine (ih _ _ _ _ _ _ ?_).trans (dictSet_keys_of_mem code e _ hmem)
            exact dictSet_hasKey_self code e _

/-- Loop key-set cases: the loop either leaves the key list unchanged or
appends exactly the entrypoint key once at the end. -/
theorem loopGo_keys_cases (cfg : AgentConfigM) (plan : ProjectPlan) (e : String)
    (orc : LoopOracles) :
    ∀ (rem idx : Nat) (code : CodeByFile) (acc : List AttemptRecord) (fr : RunResultS)
      (it ec : Nat),
      (loopGo cfg plan (some e) orc rem idx code acc fr it ec).code_by_file.map Prod.fst =
          code.map Prod.fst
      ∨ (loopGo cfg plan (some e) orc rem idx code acc fr it ec).code_by_file.map Prod.fst =
          code.map Prod.fst ++ [e] := by
  intro rem
  cases rem with
  | zero => intro idx code acc fr it ec; left; simp [loopGo]
  | succ n =>
      intro idx code acc fr it ec
      cases n with
      | zero =>
          rw [loopGo.eq_def]
          dsimp only
          split <;> (left; rfl)
      | succ m =>
          rw [loopGo.eq_def]
          dsimp only
          split
          · left; rfl
          · cases hmem : dictHasKey code e
            · right
              refine (loopGo_keys_of_entry_mem cfg plan e orc _ _ _ _ _ _ _
                (dictSet_hasKey_self code e _)).trans ?_
              exact dictSet_keys_of_not_mem code e _ hmem
            · left
              refine (loopGo_keys_of_entry_mem cfg plan e orc _ _ _ _ _ _ _
                (dictSet_hasKey_self code e _)).trans ?_
              exact dictSet_keys_of_mem code e _ hmem

/-- With no known entrypoint the loop never revises: `code_by_file` is
returned untouched. -/
theorem loopGo_entry_none (cfg : AgentConfigM) (plan : ProjectPlan) (orc : LoopOracles) :
    ∀ (rem idx : Nat) (code : CodeByFile) (acc : List AttemptRecord) (fr : RunResultS)
      (it ec : Nat),
      (loopGo cfg plan none orc rem idx code acc fr it ec).code_by_file = code := by
  intro rem
  cases rem with
  | zero => intro idx code acc fr it ec; simp [loopGo]
  | succ n =>
      intro idx code acc fr it ec
      cases n with
      | zero =>
          rw [loopGo.eq_def]
          dsimp only
          split <;> rfl
      | succ m =>
          rw [loopGo.eq_def]
          dsimp only
          split <;> rfl

/-- Counterexample to **C3** as stated: when codegen never produced the
entrypoint file, the revision `code_by_file[entrypoint_name] = revise_code(...)`
*adds* the entrypoint key.  Concretely: the plan declares `main.py`
(entrypoint) and `helper.py`, generation produced only `helper.py`, both
attempts fail (so a REVISE transition occurs after attempt 0), and the final
key list is `["helper.py", "main.py"]` — a key was added. -/
theorem claim_C3_counterexample :
    (solveLoop ⟨1, [], [], true⟩
        ⟨[⟨"main.py", some "entrypoint"⟩, ⟨"helper.py", some "helper"⟩], []⟩
        (some "main.py")
        ⟨fun _ _ => .result ⟨true, []⟩, fun _ _ => ⟨true, "", none⟩,
          fun i _ _ _ => "rev" ++ toString i⟩
        [("helper.py", "def h(x):\n    return x")]).records.length = 2
    ∧ ((solveLoop ⟨1, [], [], true⟩
        ⟨[⟨"main.py", some "entrypoint"⟩, ⟨"helper.py", some "helper"⟩], []⟩
        (some "main.py")
        ⟨fun _ _ => .result ⟨true, []⟩, fun _ _ => ⟨true, "", none⟩,
          fun i _ _ _ => "rev" ++ toString i⟩
        [("helper.py", "def h(x):\n    return x")]).records.map fun rec => rec.success) =
        [false, false]
    ∧ [("helper.py", "def h(x):\n    return x")].map
        (Prod.fst (α := String) (β := String)) = ["helper.py"]
    ∧ (solveLoop ⟨1, [], [], true⟩
        ⟨[⟨"main.py", some "entrypoint"⟩, ⟨"helper.py", some "helper"⟩], []⟩
        (some "main.py")
        ⟨fun _ _ => .result ⟨true, []⟩, fun _ _ => ⟨true, "", none⟩,
          fun i _ _ _ => "rev" ++ toString i⟩
        [("helper.py", "def h(x):\n    return x")]).code_by_file.map Prod.fst =
        ["helper.py", "main.py"] := by
  refine ⟨?_, ?_, rfl, ?_⟩ <;> decide

/-- **C3 (amended).** Across every sequence of attempts: the binding of
every key other than the entrypoint's is byte-identical to its initial
value; when the entrypoint key is present initially, no key is ever added or
removed; in general, the key list is either unchanged or extended by exactly
the entrypoint's key (added by the first revision when codegen did not
produce that file); and with no known entrypoint the map is untouched. -/
theorem claim_C3 (cfg : AgentConfigM) (plan : ProjectPlan) (entry : Option String)
    (orc : LoopOracles) (code0 : CodeByFile) :
    (∀ k, (∀ e, entry = some e → k ≠ e) →
      (solveLoop cfg plan entry orc code0).code_by_file.find? (fun kv => kv.1 = k) =
        code0.find? (fun kv => kv.1 = k))
    ∧ (∀ e, entry = some e → dictHasKey code0 e = true →
        (solveLoop cfg plan entry orc code0).code_by_file.map Prod.fst =
          code0.map Prod.fst)
    ∧ (∀ e, entry = some e →
        (solveLoop cfg plan entry orc code0).code_by_file.map Prod.fst =
            code0.map Prod.fst
        ∨ (solveLoop cfg plan entry orc code0).code_by_file.map Prod.fst =
            code0.map Prod.fst ++ [e])
    ∧ (entry = none → (solveLoop cfg plan entry orc code0).code_by_file = code0) := by
  refine ⟨?_, ?_, ?_, ?_⟩
  · intro k hk
    exact loopGo_frame cfg plan entry orc _ 0 code0 [] initialRunResult 0 0 k hk
  · intro e he hmem
    subst he
    exact loopGo_keys_of_entry_mem cfg plan e orc _ 0 code0 [] initialRunResult 0 0 hmem
  · intro e he
    subst he
    exact loopGo_keys_cases cfg plan e orc _ 0 code0 [] initialRunResult 0 0
  · intro he
    subst he
    exact loopGo_entry_none cfg plan orc _ 0 code0 [] initialRunResult 0 0

/-- Witness for C3 (amended): in the all-failing two-file run whose
entrypoint *is* present initially, the non-entrypoint binding and the whole
key list are unchanged after two failed attempts with a revision. -/
theorem claim_C3_witness :
    (solveLoop ⟨1, [], [], true⟩
        ⟨[⟨"main.py", some "entrypoint"⟩, ⟨"helper.py", some "helper"⟩], []⟩
        (some "main.py")
        ⟨fun _ _ => .result ⟨true, []⟩, fun _ _ => ⟨true, "", none⟩,
          fun i _ _ _ => "rev" ++ toString i⟩
        [("main.py", "x = 1"), ("helper.py", "def h(x):\n    return x")]).code_by_file.find?
        (fun kv => kv.1 = "helper.py") = some ("helper.py", "def h(x):\n    return x")
    ∧ (solveLoop ⟨1, [], [], true⟩
        ⟨[⟨"main.py", some "entrypoint"⟩, ⟨"helper.py", some "helper"⟩], []⟩
        (some "main.py")
        ⟨fun _ _ => .result ⟨true, []⟩, fun _ _ => ⟨true, "", none⟩,
          fun i _ _ _ => "rev" ++ toString i⟩
        [("main.py", "x = 1"), ("helper.py", "def h(x):\n    return x")]).code_by_file.map
        Prod.fst = ["main.py", "helper.py"] := by
  constructor
  · exact ((claim_C3 ⟨1, [], [], true⟩
      ⟨[⟨"main.py", some "entrypoint"⟩, ⟨"helper.py", some "helper"⟩], []⟩
      (some "main.py")
      ⟨fun _ _ => .result ⟨true, []⟩, fun _ _ => ⟨true, "", none⟩,
        fun i _ _ _ => "rev" ++ toString i⟩
      [("main.py", "x = 1"), ("helper.py", "def h(x):\n    return x")]).1 "helper.py"
      (by intro e he hk; cases he; exact absurd hk (by decide))).trans (by decide)
  · exact ((claim_C3 ⟨1, [], [], true⟩
      ⟨[⟨"main.py", some "entrypoint"⟩, ⟨"helper.py", some "helper"⟩], []⟩
      (some "main.py")
      ⟨fun _ _ => .result ⟨true, []⟩, fun _ _ => ⟨true, "", none⟩,
        fun i _ _ _ => "rev" ++ toString i⟩
      [("main.py", "x = 1"), ("helper.py", "def h(x):\n    return x")]).2.1 "main.py" rfl
      (by decide)).trans (by decide)

/-- `prevOf` shifts through a cons. -/
theorem prevOf_cons (prev : Option Char) (c : Char) (pre : List Char) :
    prevOf prev (c :: pre) = prevOf (some c) pre := by
  cases pre with
  | nil => rfl
  | cons d t =>
      unfold prevOf
      rw [List.getLast?_cons_cons]
      cases h : (d :: t).getLast? with
      | none => exact absurd (List.getLast?_eq_none_iff.mp h) (by simp)
      | some x => rfl

/-- `prevOf` from the subject start is the last character of the consumed
prefix. -/
theorem prevOf_none (pre : List Char) : prevOf none pre = pre.getLast? := by
  unfold prevOf
  cases pre.getLast? <;> rfl

/-- The `re.search` scan succeeds iff some split of the subject makes the
pattern match, with the boundary context being the last consumed
character. -/
theorem scanPat_iff (p : Option Char → List Char → Bool) :
    ∀ (l : List Char) (prev : Option Char),
      scanPat p prev l = true ↔
        ∃ pre post, l = pre ++ post ∧ p (prevOf prev pre) post = true := by
  intro l
  induction l with
  | nil =>
      intro prev
      constructor
      · intro h
        exact ⟨[], [], rfl, h⟩
      · rintro ⟨pre, post, heq, hp⟩
        obtain ⟨h1, h2⟩ := List.append_eq_nil.mp heq.symm
        subst h1; subst h2
        exact hp
  | cons c rest ih =>
      intro prev
      constructor
      · intro h
        simp only [scanPat, Bool.or_eq_true] at h
        rcases h with h1 | h2
        · exact ⟨[], c :: rest, rfl, h1⟩
        · rcases (ih (some c)).mp h2 with ⟨pre, post, heq, hp⟩
          exact ⟨c :: pre, post, by rw [heq, List.cons_append], by rw [prevOf_cons]; exact hp⟩
      · rintro ⟨pre, post, heq, hp⟩
        show (p prev (c :: rest) || scanPat p (some c) rest) = true
        simp only [Bool.or_eq_true]
        cases pre with
        | nil =>
            obtain rfl : c :: rest = post := heq
            exact Or.inl hp
        | cons d pt =>
            obtain ⟨rfl, hrest⟩ : c = d ∧ rest = pt ++ post := by
              have := heq
              simp only [List.cons_append, List.cons.injEq] at this
              exact this
            refine Or.inr ((ih (some c)).mpr ⟨pt, post, hrest, ?_⟩)
            rw [← prevOf_cons prev]
            exact hp

/-- `dropLit` succeeds exactly on a literal-prefixed subject. -/
theorem dropLit_eq_some_iff (lit l r : List Char) :
    dropLit lit l = some r ↔ l = lit ++ r := by
  unfold dropLit
  by_cases hp : lit.isPrefixOf l
  · obtain ⟨t, ht⟩ := List.isPrefixOf_iff_prefix.mp hp
    subst ht
    rw [if_pos hp, List.drop_left]
    constructor
    · intro h
      obtain rfl : t = r := by injection h
      rfl
    · intro h
      obtain rfl : t = r := List.append_cancel_left h
      rfl
  · rw [if_neg hp]
    constructor
    · intro h; cases h
    · intro h
      exact absurd (List.isPrefixOf_iff_prefix.mpr ⟨r, h.symm⟩) hp

/-- `modTailMatch` characterization: the subject starts with the module
literal and a word boundary follows it. -/
theorem modTailMatch_iff (mod : List Char) (lastSp : Char) (l : List Char) :
    modTailMatch mod lastSp l = true ↔
      ∃ post, l = mod ++ post ∧
        boundaryB (some (mod.getLastD lastSp)) post.head? = true := by
  unfold modTailMatch
  cases hd : dropLit mod l with
  | none =>
      constructor
      · intro h; cases h
      · rintro ⟨post, heq, _⟩
        rw [(dropLit_eq_some_iff mod l post).mpr heq] at hd
        cases hd
  | some rest =>
      have heq := (dropLit_eq_some_iff mod l rest).mp hd
      constructor
      · intro h
        exact ⟨rest, heq, h⟩
      · rintro ⟨post, heq2, hb⟩
        obtain rfl : rest = post := List.append_cancel_left (heq.symm.trans heq2)
        exact hb

/-- `spacesRest` characterization: a (possibly empty) run of further
whitespace, then the module tail. -/
theorem spacesRest_iff (mod : List Char) :
    ∀ (l : List Char) (lastSp : Char),
      spacesRest mod lastSp l = true ↔
        ∃ sp rest, l = sp ++ rest ∧ (∀ c ∈ sp, isPySpace c = true) ∧
          modTailMatch mod (sp.getLastD lastSp) rest = true := by
  intro l
  induction l with
  | nil =>
      intro lastSp
      constructor
      · intro h
        exact ⟨[], [], rfl, by simp, h⟩
      · rintro ⟨sp, rest, heq, _, hm⟩
        obtain ⟨h1, h2⟩ := List.append_eq_nil.mp heq.symm
        subst h1; subst h2
        exact hm
  | cons c rest0 ih =>
      intro lastSp
      constructor
      · intro h
        simp only [spacesRest, Bool.or_eq_true, Bool.and_eq_true] at h
        rcases h with h1 | ⟨hc, hrest⟩
        · exact ⟨[], c :: rest0, rfl, by simp, h1⟩
        · rcases (ih c).mp hrest with ⟨sp, rest, heq, hall, hm⟩
          refine ⟨c :: sp, rest, by rw [heq, List.cons_append], ?_, ?_⟩
          · intro x hx
            rcases List.mem_cons.mp hx with h | h
            · exact h ▸ hc
            · exact hall x h
          · rw [List.getLastD_cons]
            exact hm
      · rintro ⟨sp, rest, heq, hall, hm⟩
        show (modTailMatch mod lastSp (c :: rest0) || (isPySpace c && spacesRest mod c rest0)) = true
        simp only [Bool.or_eq_true, Bool.and_eq_true]
        cases sp with
        | nil =>
            obtain rfl : c :: rest0 = rest := heq
            exact Or.inl hm
        | cons d sp2 =>
            obtain ⟨rfl, hrest⟩ : c = d ∧ rest0 = sp2 ++ rest := by
              have := heq
              simp only [List.cons_append, List.cons.injEq] at this
              exact this
            refine Or.inr ⟨hall c (List.mem_cons_self c sp2), ?_⟩
            refine (ih c).mpr ⟨sp2, rest, hrest,
              fun x hx => hall x (List.mem_cons_of_mem c hx), ?_⟩
            rw [List.getLastD_cons] at hm
            exact hm

/-- `spacesThenTail` characterization: a nonempty whitespace run, then the
module tail (for nonempty runs the `getLastD` default is irrelevant). -/
theorem spacesThenTail_iff (mod : List Char) (l : List Char) :
    spacesThenTail mod l = true ↔
      ∃ sp rest, l = sp ++ rest ∧ sp ≠ [] ∧ (∀ c ∈ sp, isPySpace c = true) ∧
        modTailMatch mod (sp.getLastD ' ') rest = true := by
  cases l with
  | nil =>
      constructor
      · intro h; cases h
      · rintro ⟨sp, rest, heq, hne, _, _⟩
        exact absurd (List.append_eq_nil.mp heq.symm).1 hne
  | cons c rest0 =>
      show (isPySpace c && spacesRest mod c rest0) = true ↔ _
      simp only [Bool.and_eq_true]
      constructor
      · rintro ⟨hc, hrest⟩
        rcases (spacesRest_iff mod rest0 c).mp hrest with ⟨sp, rest, heq, hall, hm⟩
        refine ⟨c :: sp, rest, by rw [heq, List.cons_append], by simp, ?_, ?_⟩
        · intro x hx
          rcases List.mem_cons.mp hx with h | h
          · exact h ▸ hc
          · exact hall x h
        · rw [List.getLastD_cons]
          exact hm
      · rintro ⟨sp, rest, heq, hne, hall, hm⟩
        cases sp with
        | nil => exact absurd rfl hne
        | cons d sp2 =>
            obtain ⟨rfl, hrest⟩ : c = d ∧ rest0 = sp2 ++ rest := by
              have := heq
              simp only [List.cons_append, List.cons.injEq] at this
              exact this
            refine ⟨hall c (List.mem_cons_self c sp2), ?_⟩
            refine (spacesRest_iff mod rest0 c).mpr ⟨sp2, rest, hrest,
              fun x hx => hall x (List.mem_cons_of_mem c hx), ?_⟩
            rw [List.getLastD_cons] at hm
            exact hm

/-- `modPatAt` characterization: the keyword literal, its leading boundary,
then whitespace and the module tail. -/
theorem modPatAt_iff (kw mod : List Char) (prev : Option Char) (l : List Char) :
    modPatAt kw mod prev l = true ↔
      ∃ rest, l = kw ++ rest ∧ boundaryB prev kw.head? = true ∧
        spacesThenTail mod rest = true := by
  unfold modPatAt
  cases hd : dropLit kw l with
  | none =>
      constructor
      · intro h; cases h
      · rintro ⟨rest, heq, _, _⟩
        rw [(dropLit_eq_some_iff kw l rest).mpr heq] at hd
        cases hd
  | some rest =>
      have heq := (dropLit_eq_some_iff kw l rest).mp hd
      simp only [Bool.and_eq_true]
      constructor
      · rintro ⟨hb, hst⟩
        exact ⟨rest, heq, hb, hst⟩
      · rintro ⟨rest2, heq2, hb, hst⟩
        obtain rfl : rest = rest2 := List.append_cancel_left (heq.symm.trans heq2)
        exact ⟨hb, hst⟩

/-- Full characterization of one keyword's forbidden-module regex search:
`\b kw \s+ mod \b` occurs in the code. -/
theorem searchModPat_iff (kw mod code : String) :
    searchModPat kw mod code = true ↔
      ∃ pre sp post : List Char,
        code.data = pre ++ kw.data ++ sp ++ mod.data ++ post ∧
        boundaryB (prevOf none pre) kw.data.head? = true ∧
        sp ≠ [] ∧ (∀ c ∈ sp, isPySpace c = true) ∧
        boundaryB (some (mod.data.getLastD (sp.getLastD ' '))) post.head? = true := by
  unfold searchModPat
  rw [scanPat_iff]
  constructor
  · rintro ⟨pre, post0, heq, hp⟩
    rcases (modPatAt_iff kw.data mod.data _ post0).mp hp with ⟨rest, hre, hb, hst⟩
    rcases (spacesThenTail_iff mod.data rest).mp hst with ⟨sp, rest2, hre2, hne, hall, hm⟩
    rcases (modTailMatch_iff mod.data (sp.getLastD ' ') rest2).mp hm with ⟨post, hre3, hbd⟩
    refine ⟨pre, sp, post, ?_, hb, hne, hall, hbd⟩
    rw [heq, hre, hre2, hre3]
    simp [List.append_assoc]
  · rintro ⟨pre, sp, post, heq, hb, hne, hall, hbd⟩
    refine ⟨pre, kw.data ++ (sp ++ (mod.data ++ post)), ?_, ?_⟩
    · rw [heq]
      simp [List.append_assoc]
    · refine (modPatAt_iff kw.data mod.data _ _).mpr
        ⟨sp ++ (mod.data ++ post), rfl, hb, ?_⟩
      refine (spacesThenTail_iff mod.data _).mpr
        ⟨sp, mod.data ++ post, rfl, hne, hall, ?_⟩
      exact (modTailMatch_iff mod.data (sp.getLastD ' ') _).mpr ⟨post, rfl, hbd⟩

/-- A word boundary before a word character means the left context is not a
word character. -/
theorem boundaryB_word_iff (x : Option Char) (c : Char) (hc : isWordChar c = true) :
    boundaryB x (some c) = true ↔ optWord x = false := by
  unfold boundaryB
  have h1 : optWord (some c) = true := hc
  rw [h1]
  cases hx : optWord x <;> simp [hx]

/-- The forbidden-module hit is exactly the spec's "import-like statement
references the module name with token boundaries". -/
theorem forbiddenModuleHit_iff_spec (mod code : String) :
    forbiddenModuleHit mod code = true ↔ SpecImportLikeRef mod code := by
  unfold forbiddenModuleHit SpecImportLikeRef
  simp only [Bool.or_eq_true]
  constructor
  · rintro (h | h)
    · rcases (searchModPat_iff "import" mod code).mp h with ⟨pre, sp, post, heq, hb, hne, hall, hbd⟩
      refine ⟨"import".data, pre, sp, post, Or.inl rfl, heq, ?_, hne, hall, hbd⟩
      rw [← prevOf_none pre]
      exact (boundaryB_word_iff _ 'i' (by decide)).mp hb
    · rcases (searchModPat_iff "from" mod code).mp h with ⟨pre, sp, post, heq, hb, hne, hall, hbd⟩
      refine ⟨"from".data, pre, sp, post, Or.inr rfl, heq, ?_, hne, hall, hbd⟩
      rw [← prevOf_none pre]
      exact (boundaryB_word_iff _ 'f' (by decide)).mp hb
  · rintro ⟨kw, pre, sp, post, hkw | hkw, heq, hpre, hne, hall, hbd⟩
    · subst hkw
      refine Or.inl ((searchModPat_iff "import" mod code).mpr
        ⟨pre, sp, post, heq, ?_, hne, hall, hbd⟩)
      rw [prevOf_none pre]
      exact (boundaryB_word_iff _ 'i' (by decide)).mpr hpre
    · subst hkw
      refine Or.inr ((searchModPat_iff "from" mod code).mpr
        ⟨pre, sp, post, heq, ?_, hne, hall, hbd⟩)
      rw [prevOf_none pre]
      exact (boundaryB_word_iff _ 'f' (by decide)).mpr hpre

/-- `allSuffixesSatisfy` characterization: every split's suffix satisfies
the predicate. -/
theorem allSuffixesSatisfy_iff (p : List Char → Bool) :
    ∀ l : List Char, allSuffixesSatisfy p l = true ↔
      ∀ pre post, l = pre ++ post → p post = true := by
  intro l
  induction l with
  | nil =>
      constructor
      · intro h pre post heq
        obtain ⟨h1, h2⟩ := List.append_eq_nil.mp heq.symm
        subst h1; subst h2
        exact h
      · intro h
        exact h [] [] rfl
  | cons c rest ih =>
      constructor
      · intro h pre post heq
        simp only [allSuffixesSatisfy, Bool.and_eq_true] at h
        cases pre with
        | nil =>
            obtain rfl : c :: rest = post := heq
            exact h.1
        | cons d pt =>
            obtain ⟨rfl, hrest⟩ : c = d ∧ rest = pt ++ post := by
              have := heq
              simp only [List.cons_append, List.cons.injEq] at this
              exact this
            exact (ih.mp h.2) pt post hrest
      · intro h
        simp only [allSuffixesSatisfy, Bool.and_eq_true]
        exact ⟨h [] (c :: rest) rfl,
          ih.mpr fun pre post heq => h (c :: pre) post (by rw [heq, List.cons_append])⟩

/-- `pyModMsg` data decomposition. -/
theorem pyModMsg_data (a : String) :
    (pyModMsg a).data =
      "Use of forbidden module \x27".data ++ a.data ++ "\x27 is not allowed.".data := by
  unfold pyModMsg
  rw [String.data_append, String.data_append]

/-- `pyCallMsg` data decomposition. -/
theorem pyCallMsg_data (a : String) :
    (pyCallMsg a).data =
      "Use of forbidden call \x27".data ++ a.data ++ "\x27 is not allowed.".data := by
  unfold pyCallMsg
  rw [String.data_append, String.data_append]

/-- Module issue texts start with `U`. -/
theorem pyModMsg_head (a : String) : (pyModMsg a).data.head? = some 'U' := by
  rw [pyModMsg_data, List.append_assoc, List.head?_append_of_ne_nil _ (by decide)]
  decide

/-- Call issue texts start with `U`. -/
theorem pyCallMsg_head (a : String) : (pyCallMsg a).data.head? = some 'U' := by
  rw [pyCallMsg_data, List.append_assoc, List.head?_append_of_ne_nil _ (by decide)]
  decide

/-- Module issue texts read `m` (of "module") at index 17. -/
theorem pyModMsg_getElem17 (a : String) : (pyModMsg a).data[17]? = some 'm' := by
  rw [pyModMsg_data, List.append_assoc, List.getElem?_append_left (by decide)]
  decide

/-- Call issue texts read `c` (of "call") at index 17. -/
theorem pyCallMsg_getElem17 (a : String) : (pyCallMsg a).data[17]? = some 'c' := by
  rw [pyCallMsg_data, List.append_assoc, List.getElem?_append_left (by decide)]
  decide

/-- The module template is injective. -/
theorem pyModMsg_inj {a b : String} (h : pyModMsg a = pyModMsg b) : a = b := by
  have hd : (pyModMsg a).data = (pyModMsg b).data := by rw [h]
  rw [pyModMsg_data, pyModMsg_data] at hd
  exact String.ext (List.append_cancel_left (List.append_cancel_right hd))

/-- A module issue is never a call issue (they differ at index 17). -/
theorem pyModMsg_ne_pyCallMsg (a b : String) : pyModMsg a ≠ pyCallMsg b := by
  intro h
  have h2 : (pyModMsg a).data[17]? = (pyCallMsg b).data[17]? := by rw [h]
  rw [pyModMsg_getElem17, pyCallMsg_getElem17] at h2
  exact absurd h2 (by decide)

/-- A module issue is never the fence issue (initial `U` vs `R`). -/
theorem pyModMsg_ne_pyFenceMsg (a : String) : pyModMsg a ≠ pyFenceMsg := by
  intro h
  have h2 : (pyModMsg a).data.head? = pyFenceMsg.data.head? := by rw [h]
  rw [pyModMsg_head] at h2
  exact absurd h2 (by decide)

/-- A module issue is never the marker issue (initial `U` vs `C`). -/
theorem pyModMsg_ne_pyMarkerMsg (a : String) : pyModMsg a ≠ pyMarkerMsg := by
  intro h
  have h2 : (pyModMsg a).data.head? = pyMarkerMsg.data.head? := by rw [h]
  rw [pyModMsg_head] at h2
  exact absurd h2 (by decide)

/-- A call issue is never the marker issue (initial `U` vs `C`). -/
theorem pyCallMsg_ne_pyMarkerMsg (a : String) : pyCallMsg a ≠ pyMarkerMsg := by
  intro h
  have h2 : (pyCallMsg a).data.head? = pyMarkerMsg.data.head? := by rw [h]
  rw [pyCallMsg_head] at h2
  exact absurd h2 (by decide)

/-- The module issue for `mod` appears in the validator's output iff the
forbidden-module regex hits (for any configured `mod`). -/
theorem pyModMsg_mem_validate_iff (cfg : RuleConfig) (code : String) (r : Option Bool)
    (mod : String) (hmem : mod ∈ cfg.forbidden_modules) :
    pyModMsg mod ∈ (validate_code code cfg r).2 ↔ forbiddenModuleHit mod code = true := by
  show pyModMsg mod ∈
    moduleIssues cfg code ++ callIssues cfg code ++ fenceIssues code ++
      markerIssues cfg code r ↔ _
  simp only [List.mem_append]
  constructor
  · rintro (((h | h) | h) | h)
    · rcases List.mem_filterMap.mp h with ⟨m, _, hsome⟩
      by_cases hhit : forbiddenModuleHit m code = true
      · rw [if_pos hhit] at hsome
        have heq : pyModMsg m = pyModMsg mod := by injection hsome
        rw [← pyModMsg_inj heq]
        exact hhit
      · rw [if_neg hhit] at hsome
        cases hsome
    · rcases List.mem_filterMap.mp h with ⟨cl, _, hsome⟩
      by_cases hc : strContains code cl = true
      · rw [if_pos hc] at hsome
        have heq : pyCallMsg cl = pyModMsg mod := by injection hsome
        exact absurd heq.symm (pyModMsg_ne_pyCallMsg mod cl)
      · rw [if_neg hc] at hsome
        cases hsome
    · unfold fenceIssues at h
      split at h
      · exact absurd (List.mem_singleton.mp h) (pyModMsg_ne_pyFenceMsg mod)
      · cases h
    · unfold markerIssues at h
      dsimp only at h
      split at h
      · exact absurd (List.mem_singleton.mp h) (pyModMsg_ne_pyMarkerMsg mod)
      · cases h
  · intro h
    exact Or.inl (Or.inl (Or.inl (List.mem_filterMap.mpr ⟨mod, hmem, by rw [if_pos h]⟩)))

/-- **C5.** For every rule configuration and source: the validator emits the
issue naming a configured forbidden module *exactly when* an import-like
statement references the module name with token boundaries (the spec-side
predicate `SpecImportLikeRef`); any such issue forces `is_valid = false`;
and a module name that occurs only inside longer identifiers (every
occurrence immediately followed by a word character) never triggers the
issue. -/
theorem claim_C5 (cfg : RuleConfig) (code mod : String) (r : Option Bool)
    (hmem : mod ∈ cfg.forbidden_modules) :
    (pyModMsg mod ∈ (validate_code code cfg r).2 ↔ SpecImportLikeRef mod code)
    ∧ (pyModMsg mod ∈ (validate_code code cfg r).2 → (validate_code code cfg r).1 = false)
    ∧ (mod.data ≠ [] → mod.data.all isWordChar = true →
        occursOnlyInterior mod code = true →
        pyModMsg mod ∉ (validate_code code cfg r).2) := by
  refine ⟨(pyModMsg_mem_validate_iff cfg code r mod hmem).trans
    (forbiddenModuleHit_iff_spec mod code), ?_, ?_⟩
  · intro h
    show ((validate_code code cfg r).2).isEmpty = false
    rcases hl : (validate_code code cfg r).2 with _ | ⟨a, t⟩
    · rw [hl] at h
      cases h
    · rfl
  · intro hne hall hint h
    have hspec := ((pyModMsg_mem_validate_iff cfg code r mod hmem).trans
      (forbiddenModuleHit_iff_spec mod code)).mp h
    rcases hspec with ⟨kw, pre, sp, post, _, heq, _, _, _, hbd⟩
    have hp := (allSuffixesSatisfy_iff _ code.data).mp hint (pre ++ kw ++ sp)
      (mod.data ++ post) (by rw [heq]; simp [List.append_assoc])
    rw [List.drop_left] at hp
    have hpref : mod.data.isPrefixOf (mod.data ++ post) = true :=
      List.isPrefixOf_iff_prefix.mpr ⟨post, rfl⟩
    rw [hpref] at hp
    simp only [Bool.not_true, Bool.false_or] at hp
    have hlast : isWordChar (mod.data.getLastD (sp.getLastD ' ')) = true := by
      rw [List.getLastD_eq_getLast?]
      rcases hg : mod.data.getLast? with _ | x
      · exact absurd (List.getLast?_eq_none_iff.mp hg) hne
      · exact (List.all_eq_true.mp hall) x (List.mem_of_getLast?_eq_some hg)
    have hfalse : boundaryB (some (mod.data.getLastD (sp.getLastD ' '))) post.head? = false := by
      unfold boundaryB
      have h1 : optWord (some (mod.data.getLastD (sp.getLastD ' '))) = true := hlast
      rw [h1, hp]
      rfl
    rw [hfalse] at hbd
    cases hbd

/-- Witness for C5 at the default rule set: `from os import path` is
flagged with the `os` issue and fails validation (with an explicit
boundary decomposition), while `import osmodule` — where `os` occurs only
inside a longer identifier — is not flagged. -/
theorem claim_C5_witness :
    pyModMsg "os" ∈ (validate_code "from os import path" defaultRules (some false)).2
    ∧ (validate_code "from os import path" defaultRules (some false)).1 = false
    ∧ pyModMsg "os" ∉ (validate_code "import osmodule" defaultRules (some false)).2 := by
  have hpos : pyModMsg "os" ∈ (validate_code "from os import path" defaultRules (some false)).2 :=
    (claim_C5 defaultRules "from os import path" "os" (some false) (by decide)).1.mpr
      ⟨"from".data, [], [' '], " import path".data, Or.inr rfl, by decide, by decide,
        by decide, by decide, by decide⟩
  refine ⟨hpos,
    (claim_C5 defaultRules "from os import path" "os" (some false) (by decide)).2.1 hpos,
    (claim_C5 defaultRules "import osmodule" "os" (some false) (by decide)).2.2
      (by decide) (by decide) (by decide)⟩


/-- The marker issue appears in the validator's output iff the marker is
required and the marker regex does not match. -/
theorem pyMarkerMsg_mem_validate_iff (cfg : RuleConfig) (code : String) (r : Option Bool) :
    pyMarkerMsg ∈ (validate_code code cfg r).2 ↔
      (r.getD cfg.require_answer_print = true ∧ hasAnswerMarker code = false) := by
  show pyMarkerMsg ∈
    moduleIssues cfg code ++ callIssues cfg code ++ fenceIssues code ++
      markerIssues cfg code r ↔ _
  simp only [List.mem_append]
  constructor
  · rintro (((h | h) | h) | h)
    · rcases List.mem_filterMap.mp h with ⟨m, _, hsome⟩
      by_cases hhit : forbiddenModuleHit m code = true
      · rw [if_pos hhit] at hsome
        have heq : pyModMsg m = pyMarkerMsg := by injection hsome
        exact absurd heq (pyModMsg_ne_pyMarkerMsg m)
      · rw [if_neg hhit] at hsome
        cases hsome
    · rcases List.mem_filterMap.mp h with ⟨cl, _, hsome⟩
      by_cases hc : strContains code cl = true
      · rw [if_pos hc] at hsome
        have heq : pyCallMsg cl = pyMarkerMsg := by injection hsome
        exact absurd heq (pyCallMsg_ne_pyMarkerMsg cl)
      · rw [if_neg hc] at hsome
        cases hsome
    · unfold fenceIssues at h
      split at h
      · exact absurd (List.mem_singleton.mp h) (by decide)
      · cases h
    · unfold markerIssues at h
      dsimp only at h
      split at h
      · rename_i hcond
        rw [Bool.and_eq_true] at hcond
        obtain ⟨h1, h2⟩ := hcond
        refine ⟨h1, ?_⟩
        cases hm : hasAnswerMarker code
        · rfl
        · rw [hm] at h2
          cases h2
      · cases h
  · rintro ⟨h1, h2⟩
    refine Or.inr ?_
    unfold markerIssues
    dsimp only
    have hcond : (r.getD cfg.require_answer_print && !hasAnswerMarker code) = true := by
      rw [h1, h2]
      rfl
    rw [if_pos hcond]
    exact List.mem_singleton.mpr rfl

/-- `skipSpacesThen` is monotone in its continuation. -/
theorem skipSpacesThen_mono (p q : List Char → Bool)
    (hpq : ∀ l, p l = true → q l = true) :
    ∀ l, skipSpacesThen p l = true → skipSpacesThen q l = true := by
  intro l
  induction l with
  | nil =>
      intro h
      exact hpq [] h
  | cons c rest ih =>
      intro h
      simp only [skipSpacesThen, Bool.or_eq_true, Bool.and_eq_true] at h ⊢
      rcases h with h | ⟨hc, hr⟩
      · exact Or.inl (hpq _ h)
      · exact Or.inr ⟨hc, ih hr⟩

/-- `scanAny` is monotone in its pattern. -/
theorem scanAny_mono (p q : List Char → Bool) (hpq : ∀ l, p l = true → q l = true) :
    ∀ l, scanAny p l = true → scanAny q l = true := by
  intro l
  induction l with
  | nil =>
      intro h
      exact hpq [] h
  | cons c rest ih =>
      intro h
      simp only [scanAny, Bool.or_eq_true] at h ⊢
      rcases h with h | h
      · exact Or.inl (hpq _ h)
      · exact Or.inr (ih h)

/-- A `dropLit` success gives the corresponding `isPrefixOf`. -/
theorem isPrefixOf_of_dropLit {lit l r : List Char} (h : dropLit lit l = some r) :
    lit.isPrefixOf l = true := by
  have heq := (dropLit_eq_some_iff lit l r).mp h
  exact List.isPrefixOf_iff_prefix.mpr ⟨r, heq.symm⟩

/-- The spec's marker-with-value pattern is stronger than the source regex
pattern at every position. -/
theorem specAnswerValueAt_imp_markerPatAt :
    ∀ l, specAnswerValueAt l = true → markerPatAt l = true := by
  intro l h
  unfold specAnswerValueAt at h
  unfold markerPatAt
  cases hd : dropLit "print".data l with
  | none =>
      rw [hd] at h
      cases h
  | some r1 =>
      rw [hd] at h
      refine skipSpacesThen_mono _ _ ?_ r1 h
      intro r2 h2
      cases r2 with
      | nil => cases h2
      | cons c2 r3 =>
          rw [Bool.and_eq_true] at h2 ⊢
          obtain ⟨hc2, h2⟩ := h2
          refine ⟨hc2, skipSpacesThen_mono _ _ ?_ r3 h2⟩
          intro r4 h4
          cases r4 with
          | nil => cases h4
          | cons q r5 =>
              rw [Bool.and_eq_true] at h4 ⊢
              obtain ⟨hq, hrest⟩ := h4
              refine ⟨hq, ?_⟩
              cases hd2 : dropLit "Answer:".data r5 with
              | none =>
                  rw [hd2] at hrest
                  cases hrest
              | some r6 => exact isPrefixOf_of_dropLit hd2

/-- Counterexample to **C6** as stated: the validator's marker regex checks
only the prefix `print ( quote Answer:` and never that a value follows.  The
source text `print('Answer:` contains no print statement emitting `Answer:`
followed by a value (the spec-side predicate is false even under the weakest
reading of "a value"), yet with `require_answer_marker = true` the validator
accepts it with no issues at all. -/
theorem claim_C6_counterexample :
    specHasAnswerPrintValue "print(\x27Answer:" = false
    ∧ hasAnswerMarker "print(\x27Answer:" = true
    ∧ validate_code "print(\x27Answer:" ⟨[], [], true⟩ (some true) = (true, []) :=
  ⟨by decide, by decide, by decide⟩

/-- **C6 (amended).** With the marker required, the validator emits the
marker issue *iff* the case-sensitive regex prefix
`print \s* ( \s* quote Answer:` does not occur (whether a value follows is
not checked); any such issue forces `is_valid = false`; the empty string
fails the rule when required; with the flag resolved to false the marker
issue is never emitted; and the spec's print-with-value pattern implies the
regex prefix (so code satisfying the spec's clause is never flagged). -/
theorem claim_C6 (code : String) (cfg : RuleConfig) (r : Option Bool) :
    (pyMarkerMsg ∈ (validate_code code cfg r).2 ↔
      (r.getD cfg.require_answer_print = true ∧ hasAnswerMarker code = false))
    ∧ (r.getD cfg.require_answer_print = true → hasAnswerMarker code = false →
        (validate_code code cfg r).1 = false)
    ∧ hasAnswerMarker "" = false
    ∧ (specHasAnswerPrintValue code = true → hasAnswerMarker code = true) := by
  refine ⟨pyMarkerMsg_mem_validate_iff cfg code r, ?_, by decide, ?_⟩
  · intro h1 h2
    have hmem := (pyMarkerMsg_mem_validate_iff cfg code r).mpr ⟨h1, h2⟩
    show ((validate_code code cfg r).2).isEmpty = false
    rcases hl : (validate_code code cfg r).2 with _ | ⟨a, t⟩
    · rw [hl] at hmem
      cases hmem
    · rfl
  · intro h
    exact scanAny_mono _ _ specAnswerValueAt_imp_markerPatAt code.data h

/-- Witness for C6 (amended) at concrete inputs: a markerless entrypoint is
flagged and invalid when the marker is required, and never flagged when it
is not. -/
theorem claim_C6_witness :
    pyMarkerMsg ∈ (validate_code "x = 1" defaultRules (some true)).2
    ∧ (validate_code "x = 1" defaultRules (some true)).1 = false
    ∧ pyMarkerMsg ∉ (validate_code "x = 1" defaultRules (some false)).2 := by
  refine ⟨(claim_C6 "x = 1" defaultRules (some true)).1.mpr ⟨rfl, by decide⟩,
    (claim_C6 "x = 1" defaultRules (some true)).2.1 rfl (by decide), ?_⟩
  intro hmem
  have h := (claim_C6 "x = 1" defaultRules (some false)).1.mp hmem
  exact absurd h.1 (by decide)
